import Mathlib

/-!
# ITP_HW, task 2: the player game

A shallow embedding of `2.c`: the player records, the name-ordered binary
tree that stores pointers to them, and the action handlers.

Memory is explicit.  Player records live in a `heap` (a list of cells, the
index of a cell is its address, a freed cell is `none`).  A `player*` is an
`Option Nat`: `none` is the C `NULL`, `some a` is address `a`.  A tree node
pointer is a value of `player_tree_node`: the constructor `NULL` is the null
pointer, `node` is a pointer to an allocated node together with everything
that node owns.  Every function that can run into undefined behaviour
(reading through `NULL`, through a dangling pointer, out of an array's
bounds, signed overflow) returns an `Option` whose `none` is that undefined
behaviour.
-/

namespace PlayerGame

/-! ## Constants -/

/-- Maximum allowed power for the player. -/
def MAX_POWER : Nat := 1000

/-- Largest `int32_t`. -/
def INT32_MAX : Int := 2147483647

/-- Number of values of `size_t`. -/
def SIZE_MOD : Nat := 2 ^ 64

/-! ## C strings -/

/-- The C `strcmp` on the characters before the terminating NUL: negative,
zero or positive as the first string is below, equal to or above the second
(characters compared by code). -/
def strcmp : List Char → List Char → Int
  | [], [] => 0
  | [], _ :: _ => -1
  | _ :: _, [] => 1
  | a :: s, b :: t =>
    if a.toNat < b.toNat then -1
    else if b.toNat < a.toNat then 1
    else strcmp s t

/-! ## Player -/

/-- Player structure: `name`, `power` (bit-field of 10 bits), `team_number`
(4 bits), `is_visible` (1 bit). -/
structure player where
  name : List Char
  power : Nat
  team_number : Nat
  is_visible : Nat
deriving DecidableEq, Repr

/-- The heap of player records; the name buffer of a record is part of its
cell (it is allocated with the record and freed with it). -/
abbrev heap := List (Option player)

/-- Reads the record at address `a`; `none` when the cell was never allocated
or is freed. -/
def heap.read (h : heap) (a : Nat) : Option player :=
  match h[a]? with
  | some (some pl) => some pl
  | _ => none

/-- Dereferences a `player*`: undefined for `NULL` and for a dangling
pointer. -/
def heap.deref (h : heap) (p : Option Nat) : Option player :=
  match p with
  | none => none
  | some a => h.read a

/-- Overwrites the live record at address `a`. -/
def heap.write (h : heap) (a : Nat) (pl : player) : Option heap :=
  match h.read a with
  | none => none
  | some _ => some (h.set a (some pl))

/-- The C `free(player->name); free(player)` of a live record. -/
def heap.free (h : heap) (a : Nat) : Option heap :=
  match h.read a with
  | none => none
  | some _ => some (h.set a none)

/-- The C `malloc` of a record: a fresh address. -/
def heap.alloc (h : heap) (pl : player) : heap × Nat :=
  (h ++ [some pl], h.length)

/-- Creates new player without any checks (the three bit-fields keep the low
10, 4 and 1 bits of what is stored in them). -/
def __player_new_unchecked (h : heap) (name : List Char) (team_number power is_visible : Nat) :
    heap × Nat :=
  h.alloc { name := name, power := power % 1024, team_number := team_number % 16,
            is_visible := is_visible % 2 }

/-- Sets player's power to zero. -/
def __player_freeze (h : heap) (p : Option Nat) : Option heap :=
  match p with
  | none => none
  | some a =>
    match h.read a with
    | none => none
    | some pl => h.write a { pl with power := 0 }

/-- Increases player's power, capped at `MAX_POWER`; `sum_power` is a
`uint16_t`. -/
def __player_increase_power (h : heap) (p : Option Nat) (power : Nat) : Option heap :=
  match p with
  | none => none
  | some a =>
    match h.read a with
    | none => none
    | some pl =>
      let sum_power := (pl.power + power) % 65536
      h.write a { pl with power := (if sum_power < MAX_POWER then sum_power else MAX_POWER) % 1024 }

/-! ## Player binary tree -/

/-- A pointer to a tree node: `NULL`, or a node with its player pointer and
its two children. -/
inductive player_tree_node where
  | NULL : player_tree_node
  | node (player : Option Nat) (__left __right : player_tree_node) : player_tree_node
deriving DecidableEq, Repr

/-- The whole tree: root node and the `size_t` size field. -/
structure player_tree where
  __root : player_tree_node
  __size : Nat
deriving DecidableEq, Repr

/-- Creates new tree node with both children null. -/
def __player_tree_node_new (player : Option Nat) : player_tree_node :=
  .node player .NULL .NULL

/-- Creates empty tree. -/
def __player_tree_new : player_tree :=
  { __size := 0, __root := .NULL }

/-- Gets tree's size. -/
def __player_tree_get_size (tree : player_tree) : Nat :=
  tree.__size

/-- Inserts player into the node's tree; the result is the updated node,
`NULL` when the name at `tree_node` itself equals the player's name. -/
def __player_tree_node_insert (h : heap) :
    player_tree_node → Option Nat → Option player_tree_node
  | .NULL, player => some (__player_tree_node_new player)
  | .node q l r, player =>
    match h.deref player, h.deref q with
    | some pl, some ql =>
      let cmp := strcmp pl.name ql.name
      if cmp < 0 then
        match __player_tree_node_insert h l player with
        | none => none
        | some l1 => some (.node q l1 r)
      else if cmp > 0 then
        match __player_tree_node_insert h r player with
        | none => none
        | some r1 => some (.node q l r1)
      else some .NULL
    | _, _ => none

/-- Inserts player into the tree: the size is incremented first, the root is
replaced when the node insert returned a non-null node; result 1 or 0. -/
def __player_tree_insert (h : heap) (tree : player_tree) (player : Option Nat) :
    Option (player_tree × Int) :=
  let size1 := (tree.__size + 1) % SIZE_MOD
  match __player_tree_node_insert h tree.__root player with
  | none => none
  | some .NULL => some ({ __root := tree.__root, __size := size1 }, 0)
  | some new => some ({ __root := new, __size := size1 }, 1)

/-- Searches for the player by his name: pointer on found player or null. -/
def __player_tree_node_find (h : heap) : player_tree_node → List Char → Option (Option Nat)
  | .NULL, _ => some none
  | .node none _ _, _ => some none
  | .node (some a) l r, name =>
    match h.read a with
    | none => none
    | some pl =>
      let cmp := strcmp name pl.name
      if cmp = 0 then some (some a)
      else if cmp < 0 then __player_tree_node_find h l name
      else __player_tree_node_find h r name

/-- Searches for the player by his name in the whole tree. -/
def __player_tree_find (h : heap) (tree : player_tree) (name : List Char) : Option (Option Nat) :=
  __player_tree_node_find h tree.__root name

/-- Gets node with the smallest player's name (the leftmost node), or null if
there are no nodes. -/
def __player_tree_node_min : player_tree_node → player_tree_node
  | .NULL => .NULL
  | .node q .NULL r => .node q .NULL r
  | .node _ l _ => __player_tree_node_min l

/-- Gets node with the biggest player's name (the rightmost node), or null if
there are no nodes. -/
def __player_tree_node_max : player_tree_node → player_tree_node
  | .NULL => .NULL
  | .node q l .NULL => .node q l .NULL
  | .node _ _ r => __player_tree_node_max r

/-- The `player` field read through a node pointer; undefined for a null
node. -/
def player_tree_node.player_field : player_tree_node → Option (Option Nat)
  | .NULL => none
  | .node q _ _ => some q

/-- Whether a node pointer is null. -/
def player_tree_node.is_null : player_tree_node → Bool
  | .NULL => true
  | .node _ _ _ => false

/-- Frees memory for this particular node only: the player's name, the player
record and the node. -/
def __player_tree_node_free_this (h : heap) (player : Option Nat) : Option heap :=
  match player with
  | none => none
  | some a => h.free a

/-- Removes the node by given player's name and returns the updated node.
With both children present the node takes over the player pointer of the
minimum of its right subtree, and that player's name is then removed from the
right subtree. -/
def __player_tree_node_remove (h : heap) :
    player_tree_node → List Char → Option (heap × player_tree_node)
  | .NULL, _ => some (h, .NULL)
  | .node none _ _, _ => some (h, .NULL)
  | .node (some a) l r, name =>
    match h.read a with
    | none => none
    | some pl =>
      let cmp := strcmp name pl.name
      if cmp < 0 then
        match __player_tree_node_remove h l name with
        | none => none
        | some (h1, l1) => some (h1, .node (some a) l1 r)
      else if cmp > 0 then
        match __player_tree_node_remove h r name with
        | none => none
        | some (h1, r1) => some (h1, .node (some a) l r1)
      else if l.is_null then
        match __player_tree_node_free_this h (some a) with
        | none => none
        | some h1 => some (h1, r)
      else if r.is_null then
        match __player_tree_node_free_this h (some a) with
        | none => none
        | some h1 => some (h1, l)
      else
        match (__player_tree_node_min r).player_field with
        | none => none
        | some tmp_player =>
          match h.deref tmp_player with
          | none => none
          | some tmp_pl =>
            match __player_tree_node_remove h r tmp_pl.name with
            | none => none
            | some (h1, r1) => some (h1, .node tmp_player l r1)

/-- Removes the node by given player's name from the tree: the size is
decremented first (a `size_t`), then the root is replaced. -/
def __player_tree_remove (h : heap) (tree : player_tree) (name : List Char) :
    Option (heap × player_tree) :=
  let size1 := (tree.__size + SIZE_MOD - 1) % SIZE_MOD
  match __player_tree_node_remove h tree.__root name with
  | none => none
  | some (h1, root1) => some (h1, { __root := root1, __size := size1 })

/-- Frees memory for the whole tree's fragment: the player of the node, when
the pointer is not null, then the left and the right fragment.  Freeing a
record that is not live is undefined. -/
def __player_tree_node_free (h : heap) : player_tree_node → Option heap
  | .NULL => some h
  | .node q l r =>
    let freed : Option heap :=
      match q with
      | none => some h
      | some a => h.free a
    match freed with
    | none => none
    | some h1 =>
      match __player_tree_node_free h1 l with
      | none => none
      | some h2 => __player_tree_node_free h2 r

/-- Frees memory for the whole tree. -/
def __player_tree_free (h : heap) (tree : player_tree) : Option heap :=
  __player_tree_node_free h tree.__root

/-! ## Teams -/

/-- Teams structure: its `uint8_t` number and its accumulated `int32_t`
power. -/
structure team where
  number : Nat
  power : Int
deriving DecidableEq, Repr

/-- Collects power from all players in the tree's fragment to the teams:
`teams[team_number].power += power` at the node, then the left and the right
fragment.  Undefined when the index is outside the array or the sum leaves
`int32_t`. -/
def __player_tree_node_collect_power (h : heap) :
    player_tree_node → List team → Option (List team)
  | .NULL, teams => some teams
  | .node none _ _, teams => some teams
  | .node (some a) l r, teams =>
    match h.read a with
    | none => none
    | some pl =>
      match teams[pl.team_number]? with
      | none => none
      | some t =>
        let sum : Int := t.power + pl.power
        if sum ≤ INT32_MAX then
          match __player_tree_node_collect_power h l
              (teams.set pl.team_number { t with power := sum }) with
          | none => none
          | some teams1 => __player_tree_node_collect_power h r teams1
        else none

/-- Collects power from all players in the tree to the teams. -/
def __player_tree_collect_power (h : heap) (tree : player_tree) (teams : List team) :
    Option (List team) :=
  __player_tree_node_collect_power h tree.__root teams

/-! ## Observations used to state the properties -/

/-- The player pointers of a tree fragment, in order: left, node, right. -/
def player_tree_node.ptrs : player_tree_node → List (Option Nat)
  | .NULL => []
  | .node q l r => l.ptrs ++ q :: r.ptrs

/-- Number of nodes of a tree fragment. -/
def player_tree_node.count : player_tree_node → Nat
  | .NULL => 0
  | .node _ l r => l.count + 1 + r.count

/-- In-order traversal (left, node, right) that reads the name of every
node's player; undefined when a player pointer cannot be dereferenced. -/
def inorder_names (h : heap) : player_tree_node → Option (List (List Char))
  | .NULL => some []
  | .node q l r =>
    match inorder_names h l, h.deref q, inorder_names h r with
    | some ls, some pl, some rs => some (ls ++ pl.name :: rs)
    | _, _, _ => none

/-- Strictly ascending `strcmp` order of a list of names. -/
def strictly_ascending (names : List (List Char)) : Prop :=
  names.Pairwise (fun a b => strcmp a b < 0)

/-- One operation of a client of the tree: create a player record and insert
it, or remove a name. -/
inductive tree_op where
  | insert (name : List Char) (team_number power is_visible : Nat) : tree_op
  | remove (name : List Char) : tree_op
deriving DecidableEq, Repr

/-- Runs one client operation on the heap and the tree. -/
def run_op (s : heap × player_tree) : tree_op → Option (heap × player_tree)
  | .insert name team_number power is_visible =>
    match __player_new_unchecked s.1 name team_number power is_visible with
    | (h1, a) =>
      match __player_tree_insert h1 s.2 (some a) with
      | none => none
      | some (tree1, _) => some (h1, tree1)
  | .remove name => __player_tree_remove s.1 s.2 name

/-- Runs a sequence of client operations, first to last. -/
def run_ops (s : heap × player_tree) : List tree_op → Option (heap × player_tree)
  | [] => some s
  | op :: ops =>
    match run_op s op with
    | none => none
    | some s1 => run_ops s1 ops

/-- Inserts the players at the given addresses one after the other. -/
def insert_all (h : heap) (tree : player_tree) : List Nat → Option player_tree
  | [] => some tree
  | a :: ps =>
    match __player_tree_insert h tree (some a) with
    | none => none
    | some (tree1, _) => insert_all h tree1 ps

/-! ## Reading an action line -/

/-- Count characters in the string according to the pattern. -/
def strcnt (str : List Char) (pattern : Char) : Nat :=
  str.count pattern

/-- The C `isspace` of the "C" locale: space, and the codes 9 to 13. -/
def isspace (c : Char) : Bool :=
  c.toNat = 32 || (9 ≤ c.toNat && c.toNat ≤ 13)

/-- One `%s` conversion of `sscanf`: white space is skipped, then the longest
run of characters that are not white space is read.  The result is the word
and the rest of the input; `none` when the input ends before a word. -/
def scan_word (s : List Char) : Option (List Char × List Char) :=
  match s.dropWhile isspace with
  | [] => none
  | c :: cs =>
    some ((c :: cs).takeWhile (fun x => !isspace x), (c :: cs).dropWhile (fun x => !isspace x))

/-- The words that `sscanf` with a format of `n` conversions `%s`, separated
by blanks, stores: fewer than `n` when the input ends early. -/
def sscanf_words : Nat → List Char → List (List Char)
  | 0, _ => []
  | n + 1, s =>
    match scan_word s with
    | none => []
    | some (w, rest) => w :: sscanf_words n rest

/-- Result of actions. -/
inductive action_status where
  | INPUT_ERROR
  | PLAYER_IS_INVISIBLE
  | PLAYER_IS_FROZEN
  | WRONG_TEAM
  | HEAL_SELF
  | SUPER_SELF
  | OK
deriving DecidableEq, Repr

/-- Reads two players and checks if they exist: `error` carries the status
the enclosing handler returns at once, `ok` the two player pointers.  The
three words go to buffers of 100 bytes, so a word of 100 characters or more
is undefined behaviour. -/
def GET_TWO_PLAYERS (h : heap) (PLAYERS : player_tree) (FIN : List Char) :
    Option (Except action_status (Nat × Nat)) :=
  let words := sscanf_words 3 FIN
  if words.any (fun w => 100 ≤ w.length) then none
  else
    match words with
    | [_, name1, name2] =>
      if strcnt FIN (Char.ofNat 32) ≠ 2 then some (.error .INPUT_ERROR)
      else
        match __player_tree_find h PLAYERS name1 with
        | none => none
        | some none => some (.error .INPUT_ERROR)
        | some (some a1) =>
          match __player_tree_find h PLAYERS name2 with
          | none => none
          | some none => some (.error .INPUT_ERROR)
          | some (some a2) => some (.ok (a1, a2))
    | _ => some (.error .INPUT_ERROR)

/-- Does everything that `GET_TWO_PLAYERS` does, with the additional checks of
the first player: visibility, then frozen state. -/
def GET_TWO_PLAYERS_AND_CHECK_FIRST (h : heap) (PLAYERS : player_tree) (FIN : List Char) :
    Option (Except action_status (Nat × Nat)) :=
  match GET_TWO_PLAYERS h PLAYERS FIN with
  | none => none
  | some (.error st) => some (.error st)
  | some (.ok (a1, a2)) =>
    match h.read a1 with
    | none => none
    | some p1 =>
      if p1.is_visible = 0 then some (.error .PLAYER_IS_INVISIBLE)
      else if p1.power = 0 then some (.error .PLAYER_IS_FROZEN)
      else some (.ok (a1, a2))

/-! ## States -/

/-- The attack state: the heap after the action and its status. -/
def __attack_state_action (h : heap) (players : player_tree) (input : List Char) :
    Option (heap × action_status) :=
  match GET_TWO_PLAYERS_AND_CHECK_FIRST h players input with
  | none => none
  | some (.error st) => some (h, st)
  | some (.ok (player1, player2)) =>
    match h.read player1, h.read player2 with
    | some p1, some p2 =>
      if p2.is_visible = 0 then
        match __player_freeze h (some player1) with
        | none => none
        | some h1 => some (h1, .OK)
      else
        let power1 := p1.power
        let power2 := p2.power
        if power1 > power2 then
          match __player_increase_power h (some player1) ((power1 - power2) % 65536) with
          | none => none
          | some h1 =>
            match __player_freeze h1 (some player2) with
            | none => none
            | some h2 => some (h2, .OK)
        else if power1 < power2 then
          match __player_increase_power h (some player2) ((power2 - power1) % 65536) with
          | none => none
          | some h1 =>
            match __player_freeze h1 (some player1) with
            | none => none
            | some h2 => some (h2, .OK)
        else
          match __player_freeze h (some player1) with
          | none => none
          | some h1 =>
            match __player_freeze h1 (some player2) with
            | none => none
            | some h2 => some (h2, .OK)
    | _, _ => none

/-- The flip visibility state: the heap after the action and its status.  The
line is read with two conversions `%s` and must hold exactly one blank. -/
def __flip_visibility_state_action (h : heap) (players : player_tree) (input : List Char) :
    Option (heap × action_status) :=
  let words := sscanf_words 2 input
  if words.any (fun w => 100 ≤ w.length) then none
  else
    match words with
    | [_, name] =>
      if strcnt input (Char.ofNat 32) ≠ 1 then some (h, .INPUT_ERROR)
      else
        match __player_tree_find h players name with
        | none => none
        | some none => some (h, .INPUT_ERROR)
        | some (some a) =>
          match h.read a with
          | none => none
          | some pl =>
            if pl.power = 0 then some (h, .PLAYER_IS_FROZEN)
            else
              match h.write a { pl with is_visible := (if pl.is_visible = 0 then 1 else 0) % 2 } with
              | none => none
              | some h1 => some (h1, .OK)
    | _ => some (h, .INPUT_ERROR)

/-- The heal state: the heap after the action and its status.  `half_power`
is a `uint16_t`; it is stored in the first player and added to the second. -/
def __heal_state_action (h : heap) (players : player_tree) (input : List Char) :
    Option (heap × action_status) :=
  match GET_TWO_PLAYERS_AND_CHECK_FIRST h players input with
  | none => none
  | some (.error st) => some (h, st)
  | some (.ok (player1, player2)) =>
    match h.read player1, h.read player2 with
    | some p1, some p2 =>
      if p1.team_number ≠ p2.team_number then some (h, .WRONG_TEAM)
      else if player1 = player2 then some (h, .HEAL_SELF)
      else
        let half_power := ((p1.power + 1) / 2) % 65536
        match h.write player1 { p1 with power := half_power % 1024 } with
        | none => none
        | some h1 =>
          match __player_increase_power h1 (some player2) half_power with
          | none => none
          | some h2 => some (h2, .OK)
    | _, _ => none

/-- The name that `sprintf(name, "S_%lu", index_of_super)` writes. -/
def super_name (index_of_super : Nat) : List Char :=
  "S_".toList ++ Nat.toDigits 10 index_of_super

/-- The super state: the heap, the tree and the counter `index_of_super` (a
static `size_t` of the function) after the action, and its status.  On
success the new player is created and inserted, then the names of the first
and of the second player are removed from the tree. -/
def __super_state_action (h : heap) (players : player_tree) (index_of_super : Nat)
    (input : List Char) : Option ((heap × player_tree × Nat) × action_status) :=
  match GET_TWO_PLAYERS_AND_CHECK_FIRST h players input with
  | none => none
  | some (.error st) => some ((h, players, index_of_super), st)
  | some (.ok (player1, player2)) =>
    match h.read player1, h.read player2 with
    | some p1, some p2 =>
      let team := p1.team_number
      if team ≠ p2.team_number then some ((h, players, index_of_super), .WRONG_TEAM)
      else if player1 = player2 then some ((h, players, index_of_super), .SUPER_SELF)
      else
        let power1 := p1.power
        let power2 := p2.power
        let name := super_name index_of_super
        let index1 := (index_of_super + 1) % SIZE_MOD
        let sum_power := (power1 + power2) % 65536
        match __player_new_unchecked h name team
            (if MAX_POWER < sum_power then MAX_POWER else sum_power) 1 with
        | (h1, a) =>
          match __player_tree_insert h1 players (some a) with
          | none => none
          | some (players1, _) =>
            match h1.read player1 with
            | none => none
            | some q1 =>
              match __player_tree_remove h1 players1 q1.name with
              | none => none
              | some (h2, players2) =>
                match h2.read player2 with
                | none => none
                | some q2 =>
                  match __player_tree_remove h2 players2 q2.name with
                  | none => none
                  | some (h3, players3) => some ((h3, players3, index1), .OK)
    | _, _ => none

/-- Everything the states work on: the heap of player records, the tree of
players and the counter of super players. -/
structure game where
  mem : heap
  players : player_tree
  index_of_super : Nat
deriving DecidableEq, Repr

/-- The array `state_machine.states`: attack, flip visibility, heal, super at
the indices 0 to 3; an index outside the array is undefined. -/
def state_machine_states (i : Nat) (g : game) (input : List Char) :
    Option (game × action_status) :=
  match i with
  | 0 =>
    match __attack_state_action g.mem g.players input with
    | none => none
    | some (h1, st) => some ({ g with mem := h1 }, st)
  | 1 =>
    match __flip_visibility_state_action g.mem g.players input with
    | none => none
    | some (h1, st) => some ({ g with mem := h1 }, st)
  | 2 =>
    match __heal_state_action g.mem g.players input with
    | none => none
    | some (h1, st) => some ({ g with mem := h1 }, st)
  | 3 =>
    match __super_state_action g.mem g.players g.index_of_super input with
    | none => none
    | some ((h1, players1, index1), st) =>
      some ({ mem := h1, players := players1, index_of_super := index1 }, st)
  | _ => none

/-- The C `isalpha` of the "C" locale. -/
def isalpha (c : Char) : Bool :=
  (65 ≤ c.toNat && c.toNat ≤ 90) || (97 ≤ c.toNat && c.toNat ≤ 122)

/-- The C `islower` of the "C" locale. -/
def islower (c : Char) : Bool :=
  97 ≤ c.toNat && c.toNat ≤ 122

/-- Checks if a given name is valid: 1 if it is ok, 0 otherwise. -/
def is_name_correct (name : List Char) : Int :=
  let len := name.length
  if len < 2 ∨ len > 20 then 0
  else
    match name with
    | [] => 0
    | c :: rest =>
      if !isalpha c then 0
      else if islower c then 0
      else if rest.all isalpha then 1
      else 0

/-- The action keyword of the attack state. -/
def ATTACK : List Char := "attack".toList

/-- The action keyword of the flip visibility state. -/
def FLIP_VISIBILITY : List Char := "flip_visibility".toList

/-- The action keyword of the heal state. -/
def HEAL : List Char := "heal".toList

/-- The action keyword of the super state. -/
def SUPER : List Char := "super".toList

/-- Runs the state according to the read action, or returns `INPUT_ERROR` when
the action is none of the four keywords. -/
def __state_machine_parse_and_run (action : List Char) (g : game) (input : List Char) :
    Option (game × action_status) :=
  if strcmp action ATTACK = 0 then state_machine_states 0 g input
  else if strcmp action FLIP_VISIBILITY = 0 then state_machine_states 1 g input
  else if strcmp action HEAL = 0 then state_machine_states 2 g input
  else if strcmp action SUPER = 0 then state_machine_states 3 g input
  else some (g, .INPUT_ERROR)

/-- The boolean string for a visible player. -/
def TRUE : List Char := "True".toList

/-- The boolean string for an invisible player. -/
def FALSE : List Char := "False".toList

/-- Creates new player entity with field limitation checks: the heap after
the call and the pointer returned, `none` for `NULL`.  `team_number` and
`power` arrive as `uint16_t`, `number_of_teams` as `size_t`. -/
def __player_new (h : heap) (name : List Char) (team_number power : Nat)
    (visibility : List Char) (number_of_teams : Nat) : heap × Option Nat :=
  if is_name_correct name = 0 then (h, none)
  else if team_number ≥ number_of_teams then (h, none)
  else if power > MAX_POWER then (h, none)
  else if strcmp visibility TRUE = 0 then
    match __player_new_unchecked h name team_number power 1 with
    | (h1, a) => (h1, some a)
  else if strcmp visibility FALSE = 0 then
    match __player_new_unchecked h name team_number power 0 with
    | (h1, a) => (h1, some a)
  else (h, none)

/-- An uppercase letter of the "C" locale, the counterpart of `islower`. -/
def isupper (c : Char) : Bool :=
  65 ≤ c.toNat && c.toNat ≤ 90

/-- The action line made of a keyword and one name with one blank between
them. -/
def action_line_one (keyword name : List Char) : List Char :=
  keyword ++ Char.ofNat 32 :: name

/-- A word as `%s` reads it whole into a buffer of 100 bytes: not empty, no
white space, fewer than 100 characters. -/
def is_word (w : List Char) : Prop :=
  w ≠ [] ∧ (∀ c ∈ w, isspace c = false) ∧ w.length < 100

instance (w : List Char) : Decidable (is_word w) := by
  unfold is_word
  infer_instance

/-- The action line made of a keyword and two names, one blank between
neighbours. -/
def action_line (keyword name1 name2 : List Char) : List Char :=
  keyword ++ Char.ofNat 32 :: (name1 ++ Char.ofNat 32 :: name2)

/-- The record respects the widths of its bit-fields. -/
def player.fits (pl : player) : Prop :=
  pl.power < 1024 ∧ pl.team_number < 16 ∧ pl.is_visible < 2

instance (pl : player) : Decidable pl.fits := by
  unfold player.fits
  infer_instance

/-! ## The actions and the verdict in `main` -/

/-- The content of the output file after `INVALID_INPUT_PANIC`: the file is
closed and opened again for writing, which empties it, and one line is
written. -/
def INVALID_INPUT_PANIC : List Char := "Invalid inputs\n".toList

/-- What `main` writes to the output file for the status of an action:
nothing for `OK`. -/
def status_message : action_status → List Char
  | .PLAYER_IS_INVISIBLE => "This player can't play\n".toList
  | .PLAYER_IS_FROZEN => "This player is frozen\n".toList
  | .WRONG_TEAM => "Both players should be from the same team\n".toList
  | .HEAL_SELF => "The player cannot heal itself\n".toList
  | .SUPER_SELF => "The player cannot do super action with itself\n".toList
  | _ => []

/-- The loop of `main` over the actions, followed by the check that the file
has ended.  The first argument is the number of actions still allowed, 1000
at the start; `lines` are the strings that the successive calls of `fgets`
deliver, each with its newline trimmed; `out` is the content of the output
file so far.  The result is `none` for undefined behaviour; otherwise it is
the game with which the loop is left, together with `none` when it is left
by `INVALID_INPUT_PANIC` and with the output so far when the verdict is
reached. -/
def main_actions : Nat → game → List (List Char) → List Char →
    Option (game × Option (List Char))
  | 0, g, lines, out => if lines.isEmpty then some (g, some out) else some (g, none)
  | _ + 1, g, [], out => some (g, some out)
  | n + 1, g, input :: rest, out =>
    match sscanf_words 1 input with
    | [action] =>
      if 100 ≤ action.length then none
      else
        match __state_machine_parse_and_run action g input with
        | none => none
        | some (g1, status) =>
          if status = .INPUT_ERROR then some (g1, none)
          else main_actions n g1 rest (out ++ status_message status)
    | _ => some (g, none)

/-- Compares teams by their power, in descending order.  The powers that
`main` compares are sums of player powers, never negative, so the
subtraction stays inside `int`. -/
def team_cmp (arg1 arg2 : team) : Int :=
  arg2.power - arg1.power

/-- The line that names the chosen wizard. -/
def chosen_wizard (name : List Char) : List Char :=
  "The chosen wizard is ".toList ++ name ++ "\n".toList

/-- The end of `main`, from the test `number_of_teams == 1` on: what is
written to the output file.  `qsort` stands for the library sort called with
`team_cmp`; `number_of_teams` has passed the check that it is between 1 and
10.  Reading `teams[1]` or a name outside its array is undefined. -/
def main_verdict (qsort : List team → List team) (magician_names : List (List Char))
    (number_of_teams : Nat) (h : heap) (players : player_tree) : Option (List Char) :=
  if number_of_teams = 1 then
    match magician_names[0]? with
    | none => none
    | some name => some (chosen_wizard name)
  else
    let teams := (List.range number_of_teams).map
      (fun i => ({ number := i % 256, power := 0 } : team))
    match __player_tree_collect_power h players teams with
    | none => none
    | some teams1 =>
      match qsort teams1 with
      | t0 :: t1 :: _ =>
        if t0.power = t1.power then some "It's a tie\n".toList
        else
          match magician_names[t0.number]? with
          | none => none
          | some name => some (chosen_wizard name)
      | _ => none

/-- The output file at the end of `main`, for the actions and the verdict
started with `n` actions still allowed and the output `out`.  After the
last write, at `FREE_AND_EXIT`, the tree of players is freed, and only then
is the output file closed: when that release is undefined, so is the
output. -/
def main_output (qsort : List team → List team) (magician_names : List (List Char))
    (number_of_teams : Nat) (n : Nat) (g : game) (lines : List (List Char))
    (out : List Char) : Option (List Char) :=
  match main_actions n g lines out with
  | none => none
  | some (g1, none) =>
    match __player_tree_free g1.mem g1.players with
    | none => none
    | some _ => some INVALID_INPUT_PANIC
  | some (g1, some out1) =>
    match main_verdict qsort magician_names number_of_teams g1.mem g1.players with
    | none => none
    | some line =>
      match __player_tree_free g1.mem g1.players with
      | none => none
      | some _ => some (out1 ++ line)

/-! ## Merge sort of `src/1.c` -/

/-- Compares two cells of the array of names, each a pointer to a string, by
`strcmp` of the strings. -/
def cmp (p1 p2 : List Char) : Int :=
  strcmp p1 p2

/-- The merging loop of `__merge_sort`.  `arr` is the array as a list of its
elements, each of `size_of_elem` bytes; `capacity` is the number of bytes of
the block `sort_holder`; the first number is the count of cells of the
holder still to fill, `i` and `q` are the indices into the two halves, and
`holder` is what has been written so far.  A read outside the array and a
write beyond the end of the block are undefined. -/
def merge_loop {α : Type} (cmp : α → α → Int) (size_of_elem : Nat) (arr : List α)
    (mid right_border capacity : Nat) : Nat → Nat → Nat → List α → Option (List α)
  | 0, _, _, holder => some holder
  | k + 1, i, q, holder =>
    let from_left : Option Bool :=
      if q > right_border then some true
      else if i ≤ mid then
        match arr[i]?, arr[q]? with
        | some i_elem, some q_elem => some (decide (cmp i_elem q_elem < 0))
        | _, _ => none
      else some false
    match from_left with
    | none => none
    | some true =>
      match arr[i]? with
      | none => none
      | some x =>
        if (holder.length + 1) * size_of_elem ≤ capacity then
          merge_loop cmp size_of_elem arr mid right_border capacity k (i + 1) q (holder ++ [x])
        else none
    | some false =>
      match arr[q]? with
      | none => none
      | some x =>
        if (holder.length + 1) * size_of_elem ≤ capacity then
          merge_loop cmp size_of_elem arr mid right_border capacity k i (q + 1) (holder ++ [x])
        else none

/-- The second loop of `__merge_sort`: the cells of the holder are copied
back into the array from the index `pos` on. -/
def copy_back {α : Type} : List α → Nat → List α → Option (List α)
  | arr, _, [] => some arr
  | arr, pos, x :: xs =>
    if pos < arr.length then copy_back (arr.set pos x) (pos + 1) xs else none

/-- The midpoint of the borders: `(left_border + right_border) >> 1`, the sum
taken in `size_t`. -/
def midpoint (left_border right_border : Nat) : Nat :=
  ((left_border + right_border) % SIZE_MOD) / 2

/-- The number of bytes that `__merge_sort` asks of `malloc` for the block
`sort_holder`: `right_border * size_of_elem + 1`, in `size_t`. -/
def sort_holder_bytes (size_of_elem right_border : Nat) : Nat :=
  (right_border * size_of_elem + 1) % SIZE_MOD

/-- The number of cells `holder_len` that the merging loop fills:
`right_border - left_border + 1`, in `size_t`. -/
def holder_len (left_border right_border : Nat) : Nat :=
  (right_border + SIZE_MOD - left_border + 1) % SIZE_MOD

/-- The number of bytes that the merging loop writes to `sort_holder`: it
runs from the start of the block to `out_of_holder_ptr`, which is
`holder_len * size_of_elem` bytes further, in steps of one cell. -/
def holder_bytes_written (size_of_elem left_border right_border : Nat) : Nat :=
  holder_len left_border right_border * size_of_elem

/-- Merge sort of the cells `left_border` to `right_border` of the array.
The first number bounds the depth of the recursion, and the outer `none`
says that the bound was used up; the inner `none` is undefined behaviour.
The block `sort_holder` is allocated with `sort_holder_bytes` bytes, and
`malloc` is taken to succeed.  The loop that copies the holder back counts
its steps in an `int`, which overflows when there are more cells than the
largest `int`. -/
def __merge_sort {α : Type} (cmp : α → α → Int) (size_of_elem : Nat) :
    Nat → List α → Nat → Nat → Option (Option (List α))
  | 0, _, _, _ => none
  | depth + 1, arr, left_border, right_border =>
    if left_border = right_border then some (some arr)
    else
      let mid := midpoint left_border right_border
      match __merge_sort cmp size_of_elem depth arr left_border mid with
      | none => none
      | some none => some none
      | some (some arr1) =>
        match __merge_sort cmp size_of_elem depth arr1 (mid + 1) right_border with
        | none => none
        | some none => some none
        | some (some arr2) =>
          match merge_loop cmp size_of_elem arr2 mid right_border
              (sort_holder_bytes size_of_elem right_border)
              (holder_len left_border right_border) left_border (mid + 1) [] with
          | none => some none
          | some holder =>
            if INT32_MAX < (holder_len left_border right_border : Int) then some none
            else some (copy_back arr2 left_border holder)

/-- Merge sort of an array of `size` elements of `size_of_elem` bytes each:
the borders are 0 and `size - 1`, computed in `size_t`.  The recursion is
given the depth `size`. -/
def merge_sort {α : Type} (arr : List α) (size size_of_elem : Nat) (cmp : α → α → Int) :
    Option (Option (List α)) :=
  __merge_sort cmp size_of_elem size arr 0 ((size + SIZE_MOD - 1) % SIZE_MOD)

/-- The calls of `__merge_sort` that a call with the given borders leads to,
itself first, each as its pair of borders, when no memory access stops the
run on the way.  The first number bounds the depth of the recursion, and
`none` says that the bound was used up. -/
def merge_sort_calls : Nat → Nat → Nat → Option (List (Nat × Nat))
  | 0, _, _ => none
  | depth + 1, left_border, right_border =>
    if left_border = right_border then some [(left_border, right_border)]
    else
      let mid := midpoint left_border right_border
      match merge_sort_calls depth left_border mid,
          merge_sort_calls depth (mid + 1) right_border with
      | some calls1, some calls2 => some ((left_border, right_border) :: (calls1 ++ calls2))
      | _, _ => none

/-! ## Predicates and sums used to state the properties -/

/-- The tree fragment is ordered over the heap `h`: every player pointer can
be dereferenced, the names in the left fragment of a node are below the
node's name and those in its right fragment are above it. -/
def ordered (h : heap) : player_tree_node → Prop
  | .NULL => True
  | .node q l r =>
    ∃ ql, h.deref q = some ql ∧
      (∀ x ∈ l.ptrs, ∃ xl, h.deref x = some xl ∧ strcmp xl.name ql.name < 0) ∧
      (∀ x ∈ r.ptrs, ∃ xl, h.deref x = some xl ∧ 0 < strcmp xl.name ql.name) ∧
      ordered h l ∧ ordered h r

/-- The power that one player pointer contributes to team `i`. -/
def power_for_team (h : heap) (i : Nat) (x : Option Nat) : Int :=
  match h.deref x with
  | some pl => if pl.team_number = i then (pl.power : Int) else 0
  | none => 0

/-- Sum of the power of the players of team `i` among the pointers `xs`, each
pointer of the list counted once. -/
def team_power_of (h : heap) (i : Nat) (xs : List (Option Nat)) : Int :=
  (xs.map (power_for_team h i)).sum

/-- Sum of the power of all players among the pointers `xs`. -/
def total_power_of (h : heap) (xs : List (Option Nat)) : Int :=
  (xs.map (fun x => match h.deref x with
    | some pl => (pl.power : Int)
    | none => 0)).sum

/-- What C8 says of one run of `collect_power`: it is defined, keeps the
length of the array and the team numbers, adds to the power of each team the
sum of the power of the tree's players of that team, and from zeroed
accumulators the powers of all teams add up to the power of all players. -/
def collect_power_adds_team_sums (h : heap) (tree : player_tree) (teams : List team) : Prop :=
  ∃ teams1, __player_tree_collect_power h tree teams = some teams1 ∧
    teams1.length = teams.length ∧
    (∀ (i : Nat) (tm : team), teams[i]? = some tm →
      teams1[i]? = some (⟨tm.number, tm.power + team_power_of h i tree.__root.ptrs⟩ : team)) ∧
    ((∀ tm ∈ teams, tm.power = 0) →
      (teams1.map team.power).sum = total_power_of h tree.__root.ptrs)

/-- The shape of a name as the description of the game words it: an
uppercase letter first, only lowercase letters after it, and between 2 and
20 characters in all. -/
def name_as_stated (s : List Char) : Bool :=
  match s with
  | [] => false
  | c :: rest =>
    isupper c && rest.all islower && decide (2 ≤ s.length) && decide (s.length ≤ 20)

/-- The fragment without its leftmost node: that node is replaced by its
right child. -/
def without_min : player_tree_node → player_tree_node
  | .NULL => .NULL
  | .node _ .NULL r => r
  | .node q l r => .node q (without_min l) r

/-- The node that a search for `name` reaches: the fragment rooted at the
node whose player has that name, `NULL` when the search ends without one. -/
def node_of_name (h : heap) : player_tree_node → List Char → player_tree_node
  | .NULL, _ => .NULL
  | .node q l r, name =>
    match h.deref q with
    | none => .NULL
    | some ql =>
      if strcmp name ql.name = 0 then .node q l r
      else if strcmp name ql.name < 0 then node_of_name h l name
      else node_of_name h r name

/-- Three live records: `Bb` at address 0, `Aa` at 1, `Cc` at 2. -/
def heap_three : heap :=
  [some ⟨"Bb".toList, 500, 0, 1⟩, some ⟨"Aa".toList, 300, 0, 1⟩, some ⟨"Cc".toList, 400, 1, 1⟩]

/-- The tree that inserting `Bb`, `Aa`, `Cc` in this order builds: `Bb` at the
root, `Aa` on its left, `Cc` on its right. -/
def tree_three : player_tree :=
  { __root := .node (some 0) (.node (some 1) .NULL .NULL) (.node (some 2) .NULL .NULL),
    __size := 3 }

/-- The three records and a second record named `Aa` at address 3. -/
def heap_dup_leaf : heap :=
  heap_three ++ [some ⟨"Aa".toList, 7, 1, 1⟩]

/-- The three records and a second record named `Bb` at address 3. -/
def heap_dup_root : heap :=
  heap_three ++ [some ⟨"Bb".toList, 7, 1, 1⟩]

/-- The client operations that build `tree_three` from nothing. -/
def ops_three : List tree_op :=
  [.insert "Bb".toList 0 500 1, .insert "Aa".toList 0 300 1, .insert "Cc".toList 1 400 1]

/-- Two live records of equal power: `Aa` at address 0 and `Bb` at address 1,
both visible, power 400. -/
def heap_tie : heap :=
  [some ⟨"Aa".toList, 400, 0, 1⟩, some ⟨"Bb".toList, 400, 1, 1⟩]

/-- The tree that inserting `Aa`, then `Bb` builds. -/
def tree_tie : player_tree :=
  { __root := .node (some 0) .NULL (.node (some 1) .NULL .NULL), __size := 2 }

/-- Two live records of team 0: `Aa` with power 9 at address 0 and `Bb` with
power 0 at address 1, both visible. -/
def heap_heal : heap :=
  [some ⟨"Aa".toList, 9, 0, 1⟩, some ⟨"Bb".toList, 0, 0, 1⟩]

/-- The game over `heap_three` and `tree_three` with the counter of super
players at 0. -/
def game_three : game :=
  { mem := heap_three, players := tree_three, index_of_super := 0 }

/-- The game of `game_three` with `Aa` invisible and `Cc` frozen. -/
def game_three_hidden : game :=
  { mem := [some ⟨"Bb".toList, 500, 0, 1⟩, some ⟨"Aa".toList, 300, 0, 0⟩,
      some ⟨"Cc".toList, 0, 1, 1⟩],
    players := tree_three, index_of_super := 0 }

/-- Two live records of team 1: `Aa` with power 600 at address 0 and `Bb` with
power 700 at address 1, both visible. -/
def heap_super : heap :=
  [some ⟨"Aa".toList, 600, 1, 1⟩, some ⟨"Bb".toList, 700, 1, 1⟩]

/-- The game over the tree `tree_three` in which `Bb`, `Aa`, `Cc` are all
visible players of team 0, with the counter of super players at 0. -/
def game_one_team : game :=
  { mem := [some ⟨"Bb".toList, 500, 0, 1⟩, some ⟨"Aa".toList, 300, 0, 1⟩,
      some ⟨"Cc".toList, 400, 0, 1⟩],
    players := tree_three, index_of_super := 0 }

/-- The game that `super Cc Bb` leaves of `game_one_team`: the record of `Cc`
is freed, the record of `Bb` stays allocated though no node points to it,
the record of `S_0` at address 3 is freed, and the root of the tree points
to it. -/
def game_one_team_after_super : game :=
  { mem := [some ⟨"Bb".toList, 500, 0, 1⟩, some ⟨"Aa".toList, 300, 0, 1⟩, none, none],
    players := { __root := .node (some 3) (.node (some 1) .NULL .NULL) .NULL, __size := 2 },
    index_of_super := 1 }

/-- One sort that keeps the promise of `qsort`: insertion sort by
`team_cmp`. -/
def qsort_by_insertion (l : List team) : List team :=
  l.insertionSort (fun a b => team_cmp a b ≤ 0)

/-- The teams array with both accumulators zeroed. -/
def teams_zero : List team := [⟨0, 0⟩, ⟨1, 0⟩]

/-- The teams array whose first accumulator holds the largest `int32_t`. -/
def teams_full : List team := [⟨0, 2147483647⟩, ⟨1, 0⟩]

/-! ## Facts about `strcmp` -/

theorem char_toNat_inj {a b : Char} (h : a.toNat = b.toNat) : a = b := by
  rw [← Char.ofNat_toNat a, ← Char.ofNat_toNat b, h]

theorem strcmp_self (a : List Char) : strcmp a a = 0 := by
  induction a with
  | nil => rfl
  | cons c s ih => simp [strcmp, ih]

theorem strcmp_eq_zero : ∀ {a b : List Char}, strcmp a b = 0 → a = b
  | [], [], _ => rfl
  | [], _ :: _, h => by simp [strcmp] at h
  | _ :: _, [], h => by simp [strcmp] at h
  | a :: s, b :: t, h => by
    rw [strcmp] at h
    split_ifs at h with h1 h2
    all_goals first
      | omega
      | (have hab : a = b := char_toNat_inj (by omega)
         rw [hab, strcmp_eq_zero h])

theorem strcmp_swap : ∀ {a b : List Char}, strcmp a b < 0 → 0 < strcmp b a
  | [], [], h => by simp [strcmp] at h
  | [], _ :: _, _ => by simp [strcmp]
  | _ :: _, [], h => by simp [strcmp] at h
  | a :: s, b :: t, h => by
    rw [strcmp] at h ⊢
    split_ifs at h with h1 h2
    all_goals first
      | omega
      | (have h3 : ¬ b.toNat < a.toNat := by omega
         simp [h3, h1, strcmp_swap h])

theorem strcmp_swap_pos : ∀ {a b : List Char}, 0 < strcmp a b → strcmp b a < 0
  | [], [], h => by simp [strcmp] at h
  | [], _ :: _, h => by simp [strcmp] at h
  | _ :: _, [], _ => by simp [strcmp]
  | a :: s, b :: t, h => by
    rw [strcmp] at h ⊢
    split_ifs at h with h1 h2
    all_goals first
      | omega
      | simp [h2, h1, strcmp_swap_pos h]

theorem strcmp_trans : ∀ {a b c : List Char}, strcmp a b < 0 → strcmp b c < 0 → strcmp a c < 0
  | [], [], _, h, _ => by simp [strcmp] at h
  | [], _ :: _, [], _, h => by simp [strcmp] at h
  | [], _ :: _, _ :: _, _, _ => by simp [strcmp]
  | _ :: _, [], _, h, _ => by simp [strcmp] at h
  | _ :: _, _ :: _, [], _, h => by simp [strcmp] at h
  | a :: s, b :: t, c :: u, h, k => by
    rw [strcmp] at h k ⊢
    split_ifs at h with h1 h2 <;> split_ifs at k with k1 k2
    all_goals first
      | omega
      | (have e1 : ¬ a.toNat < c.toNat := by omega
         have e2 : ¬ c.toNat < a.toNat := by omega
         simp [e1, e2, strcmp_trans h k])

/-! ## The ordered tree -/

theorem deref_some {h : heap} {q : Option Nat} {pl : player} (hq : h.deref q = some pl) :
    ∃ a, q = some a ∧ h.read a = some pl := by
  cases q with
  | none => simp [heap.deref] at hq
  | some a => exact ⟨a, rfl, hq⟩

/-- On an ordered fragment `find` returns the pointer stored for a name. -/
theorem find_of_mem {h : heap} : ∀ {t : player_tree_node}, ordered h t →
    ∀ {a : Nat} {pl : player}, some a ∈ t.ptrs → h.read a = some pl →
      __player_tree_node_find h t pl.name = some (some a)
  | .NULL, _, _, _, hm, _ => by simp [player_tree_node.ptrs] at hm
  | .node q l r, ho, a, pl, hm, hr => by
    obtain ⟨ql, hq, hl, hrr, hol, hor⟩ := ho
    obtain ⟨b, rfl, hb⟩ := deref_some hq
    simp only [player_tree_node.ptrs, List.mem_append, List.mem_cons] at hm
    rw [__player_tree_node_find, hb]
    rcases hm with hm | hm | hm
    · obtain ⟨xl, hx, hlt⟩ := hl _ hm
      have : xl = pl := by simpa [heap.deref, hr] using hx.symm
      subst this
      have hne : strcmp xl.name ql.name ≠ 0 := by omega
      simp only [hne, hlt, if_true, if_false]
      exact find_of_mem hol hm hr
    · have hab : a = b := by simpa using hm
      subst hab
      have : ql = pl := by simpa [hb] using hr
      subst this
      simp [strcmp_self]
    · obtain ⟨xl, hx, hlt⟩ := hrr _ hm
      have : xl = pl := by simpa [heap.deref, hr] using hx.symm
      subst this
      have hne : strcmp xl.name ql.name ≠ 0 := by omega
      have hnl : ¬ strcmp xl.name ql.name < 0 := by omega
      simp only [hne, hnl, if_false]
      exact find_of_mem hor hm hr

/-- On an ordered fragment `find` returns null for a name that no stored
player has. -/
theorem find_of_not_mem {h : heap} : ∀ {t : player_tree_node}, ordered h t →
    ∀ {name : List Char}, (∀ x ∈ t.ptrs, ∀ xl, h.deref x = some xl → xl.name ≠ name) →
      __player_tree_node_find h t name = some none
  | .NULL, _, _, _ => by simp [__player_tree_node_find]
  | .node q l r, ho, name, hn => by
    obtain ⟨ql, hq, _, _, hol, hor⟩ := ho
    obtain ⟨b, rfl, hb⟩ := deref_some hq
    have hroot : ql.name ≠ name :=
      hn (some b) (by simp [player_tree_node.ptrs]) ql hq
    have hne : strcmp name ql.name ≠ 0 := fun h0 => hroot (strcmp_eq_zero h0).symm
    have hl : __player_tree_node_find h l name = some none := find_of_not_mem hol
      (fun x hx => hn x (by simp [player_tree_node.ptrs, hx]))
    have hr : __player_tree_node_find h r name = some none := find_of_not_mem hor
      (fun x hx => hn x (by simp [player_tree_node.ptrs, hx]))
    rw [__player_tree_node_find, hb]
    simp only [hne, if_false]
    split_ifs
    · exact hl
    · exact hr

/-- Inserting a live player whose name no stored player has keeps the
fragment ordered, returns a non-null node, and adds exactly that pointer. -/
theorem node_insert_fresh {h : heap} {a : Nat} {pl : player} (hr : h.read a = some pl) :
    ∀ {t : player_tree_node}, ordered h t →
      (∀ x ∈ t.ptrs, ∀ xl, h.deref x = some xl → xl.name ≠ pl.name) →
      ∃ t1, __player_tree_node_insert h t (some a) = some t1 ∧ t1.is_null = false ∧
        ordered h t1 ∧ ∀ x, x ∈ t1.ptrs ↔ (x = some a ∨ x ∈ t.ptrs)
  | .NULL, _, _ => by
    refine ⟨.node (some a) .NULL .NULL, rfl, rfl, ?_, ?_⟩
    · exact ⟨pl, hr, by simp [player_tree_node.ptrs], by simp [player_tree_node.ptrs],
        trivial, trivial⟩
    · intro x
      simp [player_tree_node.ptrs]
  | .node q l r, ho, hn => by
    obtain ⟨ql, hq, hl, hrr, hol, hor⟩ := ho
    have hroot : ql.name ≠ pl.name := hn q (by simp [player_tree_node.ptrs]) ql hq
    have hda : h.deref (some a) = some pl := hr
    have hne : strcmp pl.name ql.name ≠ 0 := fun h0 => hroot (strcmp_eq_zero h0).symm
    rw [__player_tree_node_insert, hda, hq]
    by_cases hlt : strcmp pl.name ql.name < 0
    · obtain ⟨l1, hi, _, ho1, hp1⟩ := node_insert_fresh hr hol
        (fun x hx => hn x (by simp [player_tree_node.ptrs, hx]))
      refine ⟨.node q l1 r, by simp [hlt, hi], rfl, ?_, ?_⟩
      · refine ⟨ql, hq, ?_, hrr, ho1, hor⟩
        intro x hx
        rcases (hp1 x).1 hx with rfl | hx
        · exact ⟨pl, hr, hlt⟩
        · exact hl x hx
      · intro x
        simp only [player_tree_node.ptrs, List.mem_append, List.mem_cons, hp1]
        tauto
    · have hgt : 0 < strcmp pl.name ql.name := by omega
      obtain ⟨r1, hi, _, ho1, hp1⟩ := node_insert_fresh hr hor
        (fun x hx => hn x (by simp [player_tree_node.ptrs, hx]))
      refine ⟨.node q l r1, by simp [hlt, hgt, hi], rfl, ?_, ?_⟩
      · refine ⟨ql, hq, hl, ?_, hol, ho1⟩
        intro x hx
        rcases (hp1 x).1 hx with rfl | hx
        · exact ⟨pl, hr, hgt⟩
        · exact hrr x hx
      · intro x
        simp only [player_tree_node.ptrs, List.mem_append, List.mem_cons, hp1]
        tauto

/-- The tree insert of a live player with a fresh name returns 1, keeps the
tree ordered and adds exactly that pointer. -/
theorem tree_insert_fresh {h : heap} {a : Nat} {pl : player} (hr : h.read a = some pl)
    {tree : player_tree} (ho : ordered h tree.__root)
    (hn : ∀ x ∈ tree.__root.ptrs, ∀ xl, h.deref x = some xl → xl.name ≠ pl.name) :
    ∃ tree1, __player_tree_insert h tree (some a) = some (tree1, 1) ∧
      ordered h tree1.__root ∧ tree1.__size = (tree.__size + 1) % SIZE_MOD ∧
      ∀ x, x ∈ tree1.__root.ptrs ↔ (x = some a ∨ x ∈ tree.__root.ptrs) := by
  obtain ⟨t1, hi, hnn, ho1, hp1⟩ := node_insert_fresh hr ho hn
  cases t1 with
  | NULL => simp [player_tree_node.is_null] at hnn
  | node q l r =>
    exact ⟨{ __root := .node q l r, __size := (tree.__size + 1) % SIZE_MOD },
      by simp [__player_tree_insert, hi], ho1, rfl, hp1⟩

/-- Inserting live players with pairwise distinct names, none of them stored
yet, succeeds, keeps the tree ordered and stores exactly those pointers in
addition. -/
theorem insert_all_fresh {h : heap} : ∀ (ps : List Nat) (tree : player_tree),
    ordered h tree.__root →
    (∀ a ∈ ps, ∃ pl, h.read a = some pl) →
    ps.Pairwise (fun a b => ∀ pa pb, h.read a = some pa → h.read b = some pb →
      pa.name ≠ pb.name) →
    (∀ a ∈ ps, ∀ pl, h.read a = some pl →
      ∀ x ∈ tree.__root.ptrs, ∀ xl, h.deref x = some xl → xl.name ≠ pl.name) →
    ∃ tree1, insert_all h tree ps = some tree1 ∧ ordered h tree1.__root ∧
      ∀ x, x ∈ tree1.__root.ptrs ↔ (x ∈ tree.__root.ptrs ∨ ∃ a ∈ ps, x = some a)
  | [], tree, ho, _, _, _ => ⟨tree, rfl, ho, by simp⟩
  | a :: ps, tree, ho, hlive, hpw, hfresh => by
    obtain ⟨pl, hr⟩ := hlive a (by simp)
    obtain ⟨tree1, hi, ho1, _, hp1⟩ :=
      tree_insert_fresh hr ho (hfresh a (by simp) pl hr)
    have hpw2 := List.pairwise_cons.1 hpw
    obtain ⟨tree2, hi2, ho2, hp2⟩ := insert_all_fresh ps tree1 ho1
      (fun b hb => hlive b (by simp [hb])) hpw2.2
      (by
        intro b hb pb hrb x hx xl hxl
        rcases (hp1 x).1 hx with rfl | hx
        · have : xl = pl := by simpa [heap.deref, hr] using hxl.symm
          subst this
          exact hpw2.1 b hb xl pb hr hrb
        · exact hfresh b (by simp [hb]) pb hrb x hx xl hxl)
    refine ⟨tree2, by simp [insert_all, hi, hi2], ho2, ?_⟩
    intro x
    rw [hp2, hp1]
    simp only [List.mem_cons, exists_eq_or_imp]
    tauto

/-! ## The concrete tree is ordered -/

theorem ordered_leaf {h : heap} {a : Nat} {pl : player} (hr : h.read a = some pl) :
    ordered h (.node (some a) .NULL .NULL) :=
  ⟨pl, hr, by simp [player_tree_node.ptrs], by simp [player_tree_node.ptrs], trivial, trivial⟩

/-- The tree `tree_three` is ordered over every heap that holds `Bb`, `Aa`,
`Cc` at the addresses 0, 1, 2. -/
theorem tree_three_ordered (h : heap) (h0 : h.read 0 = some ⟨"Bb".toList, 500, 0, 1⟩)
    (h1 : h.read 1 = some ⟨"Aa".toList, 300, 0, 1⟩)
    (h2 : h.read 2 = some ⟨"Cc".toList, 400, 1, 1⟩) : ordered h tree_three.__root := by
  refine ⟨_, h0, ?_, ?_, ordered_leaf h1, ordered_leaf h2⟩
  · intro x hx
    obtain rfl : x = some 1 := by simpa [player_tree_node.ptrs] using hx
    exact ⟨_, h1, by decide⟩
  · intro x hx
    obtain rfl : x = some 2 := by simpa [player_tree_node.ptrs] using hx
    exact ⟨_, h2, by decide⟩

/-! ## Claims about the tree -/

/-- C1, evaluated where it fails: after inserting `Bb`, `Aa`, `Cc` and removing
`Bb` (a node with two children) the root holds the pointer of `Cc`, whose
record the same removal has freed, so the in-order traversal of names reads
through a dangling pointer instead of listing `Aa`, `Cc`. -/
theorem C1_inorder_reads_freed_player :
    run_ops ([], __player_tree_new) (ops_three ++ [.remove "Bb".toList]) =
      some ([some ⟨"Bb".toList, 500, 0, 1⟩, some ⟨"Aa".toList, 300, 0, 1⟩, none],
        { __root := .node (some 2) (.node (some 1) .NULL .NULL) .NULL, __size := 2 }) ∧
    inorder_names [some ⟨"Bb".toList, 500, 0, 1⟩, some ⟨"Aa".toList, 300, 0, 1⟩, none]
      (.node (some 2) (.node (some 1) .NULL .NULL) .NULL) = none ∧
    ¬ ∃ names, inorder_names [some ⟨"Bb".toList, 500, 0, 1⟩, some ⟨"Aa".toList, 300, 0, 1⟩, none]
      (.node (some 2) (.node (some 1) .NULL .NULL) .NULL) = some names ∧
      strictly_ascending names := by
  have hnone : inorder_names
      [some ⟨"Bb".toList, 500, 0, 1⟩, some ⟨"Aa".toList, 300, 0, 1⟩, none]
      (.node (some 2) (.node (some 1) .NULL .NULL) .NULL) = none := by decide
  refine ⟨by decide, hnone, ?_⟩
  rintro ⟨names, hn, _⟩
  rw [hnone] at hn
  cases hn

/-- C2: for live players with pairwise distinct names inserted one after the
other into the empty tree, every insert is defined, `find` of each inserted
player's name returns the pointer of that very player, and `find` of a name
that none of them has returns null. -/
theorem C2_find_after_unique_inserts (h : heap) (ps : List Nat)
    (hlive : ∀ a ∈ ps, (h.read a).isSome)
    (hdist : ps.Pairwise (fun a b => (h.read a).map player.name ≠ (h.read b).map player.name)) :
    ∃ tree, insert_all h __player_tree_new ps = some tree ∧
      (∀ a ∈ ps, ∀ pl, h.read a = some pl →
        __player_tree_find h tree pl.name = some (some a)) ∧
      (∀ name, (∀ a ∈ ps, ∀ pl, h.read a = some pl → pl.name ≠ name) →
        __player_tree_find h tree name = some none) := by
  have hlive1 : ∀ a ∈ ps, ∃ pl, h.read a = some pl := fun a ha =>
    Option.isSome_iff_exists.1 (hlive a ha)
  have hdist1 : ps.Pairwise (fun a b => ∀ pa pb, h.read a = some pa → h.read b = some pb →
      pa.name ≠ pb.name) :=
    hdist.imp (fun {a b} hab pa pb ha hb hn => hab (by simp [ha, hb, hn]))
  obtain ⟨tree, hi, ho, hp⟩ := insert_all_fresh (h := h) ps __player_tree_new
    trivial hlive1 hdist1 (by simp [__player_tree_new, player_tree_node.ptrs])
  have hp1 : ∀ x, x ∈ tree.__root.ptrs ↔ ∃ a ∈ ps, x = some a := by
    intro x
    rw [hp]
    simp [__player_tree_new, player_tree_node.ptrs]
  refine ⟨tree, hi, ?_, ?_⟩
  · intro a ha pl hr
    exact find_of_mem ho ((hp1 _).2 ⟨a, ha, rfl⟩) hr
  · intro name hn
    refine find_of_not_mem ho ?_
    intro x hx xl hxl
    obtain ⟨a, ha, rfl⟩ := (hp1 x).1 hx
    exact hn a ha xl hxl

/-- C2 at the three records `Bb`, `Aa`, `Cc`. -/
theorem C2_find_after_unique_inserts_witness :
    ∃ tree, insert_all heap_three __player_tree_new [0, 1, 2] = some tree ∧
      (∀ a ∈ [0, 1, 2], ∀ pl, heap_three.read a = some pl →
        __player_tree_find heap_three tree pl.name = some (some a)) ∧
      (∀ name, (∀ a ∈ [0, 1, 2], ∀ pl, heap_three.read a = some pl → pl.name ≠ name) →
        __player_tree_find heap_three tree name = some none) :=
  C2_find_after_unique_inserts heap_three [0, 1, 2] (by decide) (by decide)

/-- C3, evaluated where it fails: `Aa` is stored below the root of
`tree_three`, and inserting a second player named `Aa` returns 1, not 0; the
root comes back with its left child set to null. -/
theorem C3_insert_returns_one_for_name_below_root :
    ordered heap_dup_leaf tree_three.__root ∧
    __player_tree_find heap_dup_leaf tree_three "Aa".toList = some (some 1) ∧
    heap_dup_leaf.read 3 = some ⟨"Aa".toList, 7, 1, 1⟩ ∧
    __player_tree_insert heap_dup_leaf tree_three (some 3) =
      some ({ __root := .node (some 0) .NULL (.node (some 2) .NULL .NULL), __size := 4 }, 1) :=
  ⟨tree_three_ordered _ rfl rfl rfl, by decide, by decide, by decide⟩

/-- C4, evaluated where it fails: inserting a second `Bb` (the root's name)
returns 0 and keeps the nodes but leaves the size field at 4 instead of 3;
inserting a second `Aa` (a name below the root) also detaches the node of
`Aa`, after which `find` of `Aa` is null. -/
theorem C4_duplicate_insert_changes_registry :
    ordered heap_dup_root tree_three.__root ∧
    ordered heap_dup_leaf tree_three.__root ∧
    __player_tree_insert heap_dup_root tree_three (some 3) =
      some ({ __root := tree_three.__root, __size := 4 }, 0) ∧
    tree_three.__size = 3 ∧
    __player_tree_find heap_dup_leaf tree_three "Aa".toList = some (some 1) ∧
    (∃ tree1 r, __player_tree_insert heap_dup_leaf tree_three (some 3) = some (tree1, r) ∧
      tree1.__root ≠ tree_three.__root ∧
      __player_tree_find heap_dup_leaf tree1 "Aa".toList = some none) := by
  refine ⟨tree_three_ordered _ rfl rfl rfl, tree_three_ordered _ rfl rfl rfl,
    by decide, by decide, by decide,
    ⟨{ __root := .node (some 0) .NULL (.node (some 2) .NULL .NULL), __size := 4 }, 1, ?_⟩⟩
  decide

/-- C5, evaluated where it fails: `Bb` is stored at the root of `tree_three`
with two children; removing it frees the record of `Cc` that the root now
points to, so the following `find` of `Bb` reads a freed record instead of
returning null. -/
theorem C5_find_after_remove_reads_freed_player :
    ordered heap_three tree_three.__root ∧
    __player_tree_find heap_three tree_three "Bb".toList = some (some 0) ∧
    __player_tree_remove heap_three tree_three "Bb".toList =
      some ([some ⟨"Bb".toList, 500, 0, 1⟩, some ⟨"Aa".toList, 300, 0, 1⟩, none],
        { __root := .node (some 2) (.node (some 1) .NULL .NULL) .NULL, __size := 2 }) ∧
    __player_tree_find [some ⟨"Bb".toList, 500, 0, 1⟩, some ⟨"Aa".toList, 300, 0, 1⟩, none]
      { __root := .node (some 2) (.node (some 1) .NULL .NULL) .NULL, __size := 2 }
      "Bb".toList = none :=
  ⟨tree_three_ordered _ rfl rfl rfl, by decide, by decide, by decide⟩

/-- C6, evaluated where it fails: before `Bb` is removed from `tree_three`,
`find` returns the records of `Aa` and `Cc`; after the removal the record of
`Cc` is freed although the root points to it, and `find` of `Aa` and of `Cc`
both read that freed record. -/
theorem C6_remove_loses_other_players :
    ordered heap_three tree_three.__root ∧
    __player_tree_find heap_three tree_three "Aa".toList = some (some 1) ∧
    __player_tree_find heap_three tree_three "Cc".toList = some (some 2) ∧
    (∃ h1 tree1, __player_tree_remove heap_three tree_three "Bb".toList = some (h1, tree1) ∧
      h1.read 2 = none ∧ tree1.__root.ptrs = [some 1, some 2] ∧
      __player_tree_find h1 tree1 "Aa".toList = none ∧
      __player_tree_find h1 tree1 "Cc".toList = none) := by
  refine ⟨tree_three_ordered _ rfl rfl rfl, by decide, by decide,
    ⟨[some ⟨"Bb".toList, 500, 0, 1⟩, some ⟨"Aa".toList, 300, 0, 1⟩, none],
      { __root := .node (some 2) (.node (some 1) .NULL .NULL) .NULL, __size := 2 }, ?_⟩⟩
  decide

/-- C7, evaluated where it fails: inserting `Bb`, `Aa`, `Cc` and removing `Bb`
leaves size 2 and two nodes, but the root's player is freed; the next
operation of the sequence, removing the stored name `Aa`, compares with the
freed record and has no defined result. -/
theorem C7_run_undefined_after_two_child_remove :
    (∃ h1 tree1, run_ops ([], __player_tree_new) (ops_three ++ [.remove "Bb".toList]) =
        some (h1, tree1) ∧ __player_tree_get_size tree1 = 2 ∧ tree1.__root.count = 2 ∧
        tree1.__root.ptrs = [some 1, some 2] ∧ h1.read 1 = some ⟨"Aa".toList, 300, 0, 1⟩) ∧
    run_ops ([], __player_tree_new)
      (ops_three ++ [.remove "Bb".toList, .remove "Aa".toList]) = none := by
  refine ⟨⟨[some ⟨"Bb".toList, 500, 0, 1⟩, some ⟨"Aa".toList, 300, 0, 1⟩, none],
      { __root := .node (some 2) (.node (some 1) .NULL .NULL) .NULL, __size := 2 }, ?_⟩, ?_⟩
  · decide
  · decide

/-! ## Collecting the power of the teams -/

theorem power_for_team_nonneg (h : heap) (i : Nat) (x : Option Nat) :
    0 ≤ power_for_team h i x := by
  unfold power_for_team
  split
  · split_ifs
    · exact Int.ofNat_nonneg _
    · exact le_refl _
  · exact le_refl _

theorem team_power_of_nonneg (h : heap) (i : Nat) (xs : List (Option Nat)) :
    0 ≤ team_power_of h i xs := by
  induction xs with
  | nil => simp [team_power_of]
  | cons x xs ih =>
    have hx := power_for_team_nonneg h i x
    simp only [team_power_of, List.map_cons, List.sum_cons] at ih ⊢
    omega

theorem team_power_of_node (h : heap) (i : Nat) (q : Option Nat) (l r : player_tree_node) :
    team_power_of h i (player_tree_node.node q l r).ptrs =
      team_power_of h i l.ptrs + power_for_team h i q + team_power_of h i r.ptrs := by
  simp [team_power_of, player_tree_node.ptrs, List.sum_append, add_assoc]

/-- The node-level run of `collect_power`: defined whenever every player can
be read, has a team inside the array, and no sum leaves `int32_t`; each cell
then holds its old power plus the power of its team in the fragment. -/
theorem node_collect_power_spec (h : heap) : ∀ (t : player_tree_node) (teams : List team),
    (∀ x ∈ t.ptrs, ∃ pl, h.deref x = some pl ∧ pl.team_number < teams.length) →
    (∀ (i : Nat) (tm : team),
      teams[i]? = some tm → tm.power + team_power_of h i t.ptrs ≤ INT32_MAX) →
    ∃ teams1, __player_tree_node_collect_power h t teams = some teams1 ∧
      teams1.length = teams.length ∧
      ∀ i : Nat, teams1[i]? = (teams[i]?).map (fun tm =>
        (⟨tm.number, tm.power + team_power_of h i t.ptrs⟩ : team))
  | .NULL, teams, _, _ => by
    refine ⟨teams, rfl, rfl, ?_⟩
    intro i
    cases hi : teams[i]? <;> simp [player_tree_node.ptrs, team_power_of]
  | .node q l r, teams, hv, hov => by
    obtain ⟨pl, hq, hlt⟩ := hv q (by simp [player_tree_node.ptrs])
    obtain ⟨a, rfl, ha⟩ := deref_some hq
    have htm : teams[pl.team_number]? = some teams[pl.team_number] :=
      List.getElem?_eq_getElem hlt
    generalize teams[pl.team_number] = tm at htm
    have hqp : ∀ i : Nat,
        power_for_team h i (some a) = if pl.team_number = i then (pl.power : Int) else 0 := by
      intro i
      simp [power_for_team, hq]
    have hnl := team_power_of_nonneg h
    have hsum : tm.power + (pl.power : Int) ≤ INT32_MAX := by
      have h1 := hov _ tm htm
      rw [team_power_of_node, hqp, if_pos rfl] at h1
      have h2 := hnl pl.team_number l.ptrs
      have h3 := hnl pl.team_number r.ptrs
      omega
    have hget0 : ∀ i : Nat,
        (teams.set pl.team_number { tm with power := tm.power + pl.power })[i]? =
        (teams[i]?).map (fun t0 =>
          (⟨t0.number, t0.power + power_for_team h i (some a)⟩ : team)) := by
      intro i
      rw [List.getElem?_set, hqp]
      by_cases hi : pl.team_number = i
      · subst hi
        simp [hlt, htm]
      · simp only [hi, if_false]
        cases teams[i]? <;> simp
    obtain ⟨teams1, hc1, hl1, hg1⟩ := node_collect_power_spec h l
      (teams.set pl.team_number { tm with power := tm.power + pl.power })
      (by
        intro x hx
        obtain ⟨xl, hxl, hxt⟩ := hv x (by simp [player_tree_node.ptrs, hx])
        exact ⟨xl, hxl, by simpa using hxt⟩)
      (by
        intro i t0 hi
        rw [hget0] at hi
        obtain ⟨t1, ht1, rfl⟩ := Option.map_eq_some'.1 hi
        have h1 := hov i t1 ht1
        rw [team_power_of_node] at h1
        have h3 := hnl i r.ptrs
        simp only
        omega)
    obtain ⟨teams2, hc2, hl2, hg2⟩ := node_collect_power_spec h r teams1
      (by
        intro x hx
        obtain ⟨xl, hxl, hxt⟩ := hv x (by simp [player_tree_node.ptrs, hx])
        exact ⟨xl, hxl, by simpa [hl1] using hxt⟩)
      (by
        intro i t0 hi
        rw [hg1, hget0] at hi
        obtain ⟨t1, ht1, rfl⟩ := Option.map_eq_some'.1 hi
        obtain ⟨t2, ht2, rfl⟩ := Option.map_eq_some'.1 ht1
        have h1 := hov i t2 ht2
        rw [team_power_of_node] at h1
        simp only
        omega)
    refine ⟨teams2, ?_, by simp [hl2, hl1], ?_⟩
    · rw [__player_tree_node_collect_power, ha]
      simp only [htm, hsum, if_true, hc1, hc2]
    · intro i
      rw [hg2, hg1, hget0, team_power_of_node]
      cases teams[i]? <;> simp [add_assoc, add_comm, add_left_comm]

theorem sum_range_indicator (t : Nat) (p : Int) : ∀ n : Nat,
    ((List.range n).map (fun i => if t = i then p else 0)).sum = if t < n then p else 0
  | 0 => by simp
  | n + 1 => by
    rw [List.range_succ, List.map_append, List.sum_append, sum_range_indicator t p n]
    by_cases h1 : t < n
    · have h2 : t ≠ n := by omega
      have h3 : t < n + 1 := by omega
      simp [h1, h2, h3]
    · by_cases h2 : t = n
      · subst h2
        simp
      · have h3 : ¬ t < n + 1 := by omega
        simp [h1, h2, h3]

/-- Over all teams of an array that holds every player's team, the team sums
add up to the power of all players. -/
theorem sum_team_power_of (h : heap) (n : Nat) : ∀ xs : List (Option Nat),
    (∀ x ∈ xs, ∃ pl, h.deref x = some pl ∧ pl.team_number < n) →
    ((List.range n).map (fun i => team_power_of h i xs)).sum = total_power_of h xs
  | [], _ => by simp [team_power_of, total_power_of]
  | x :: xs, hv => by
    obtain ⟨pl, hx, hlt⟩ := hv x (by simp)
    have ih := sum_team_power_of h n xs (fun y hy => hv y (by simp [hy]))
    have hfun : (fun i => team_power_of h i (x :: xs)) =
        fun i => (if pl.team_number = i then (pl.power : Int) else 0) + team_power_of h i xs := by
      funext i
      simp [team_power_of, power_for_team, hx]
    rw [hfun, List.sum_map_add, sum_range_indicator, ih]
    simp [total_power_of, hx, hlt]

/-- C8 as amended: `collect_power` run on a tree whose players can all be
read and have a team number below the length of the teams array, with every
accumulator able to take its team's sum without leaving `int32_t`, adds to
each `teams[t].power` exactly the sum of the power of the tree's players of
team `t`, every node counted once; from zeroed accumulators the powers of all
teams add up to the power of all players. -/
theorem C8_collect_power_adds_team_sums (h : heap) (tree : player_tree) (teams : List team)
    (hv : ∀ x ∈ tree.__root.ptrs, ∃ pl, h.deref x = some pl ∧ pl.team_number < teams.length)
    (hov : ∀ (i : Nat) (tm : team), teams[i]? = some tm →
      tm.power + team_power_of h i tree.__root.ptrs ≤ INT32_MAX) :
    collect_power_adds_team_sums h tree teams := by
  obtain ⟨teams1, hc, hl, hg⟩ := node_collect_power_spec h tree.__root teams hv hov
  refine ⟨teams1, hc, hl, ?_, ?_⟩
  · intro i tm hi
    rw [hg, hi]
    rfl
  · intro hz
    have hlist : teams1.map team.power =
        (List.range teams.length).map (fun i => team_power_of h i tree.__root.ptrs) := by
      apply List.ext_getElem?
      intro i
      rw [List.getElem?_map, List.getElem?_map, hg]
      by_cases hi : i < teams.length
      · have hz1 : teams[i].power = 0 := hz _ (List.getElem_mem hi)
        simp [List.getElem?_eq_getElem hi, List.getElem?_range hi, hz1]
      · have hi1 : teams.length ≤ i := by omega
        have hi2 : (List.range teams.length)[i]? = none :=
          List.getElem?_eq_none (by simpa using hi1)
        simp [List.getElem?_eq_none hi1, hi2]
    rw [hlist]
    exact sum_team_power_of h teams.length tree.__root.ptrs hv

/-- C8 as stated fails where an accumulator cannot take the sum: every player
of `tree_three` can be read and has a team number below the length 2 of the
array, but `teams[0].power` is `INT32_MAX` and adding the power of `Bb`
overflows the `int32_t`. -/
theorem C8_collect_power_overflow :
    (∀ x ∈ tree_three.__root.ptrs,
      ∃ pl, heap_three.deref x = some pl ∧ pl.team_number < teams_full.length) ∧
    ¬ collect_power_adds_team_sums heap_three tree_three teams_full := by
  constructor
  · intro x hx
    simp only [tree_three, player_tree_node.ptrs, List.nil_append, List.mem_cons,
      List.cons_append, List.mem_singleton, List.not_mem_nil, or_false] at hx
    rcases hx with rfl | rfl | rfl
    · exact ⟨_, rfl, by decide⟩
    · exact ⟨_, rfl, by decide⟩
    · exact ⟨_, rfl, by decide⟩
  · rintro ⟨teams1, hc, _⟩
    have hnone : __player_tree_collect_power heap_three tree_three teams_full = none := by
      decide
    rw [hnone] at hc
    cases hc

/-- C8 as amended, at `tree_three` and zeroed accumulators: team 0 collects
the 800 of `Bb` and `Aa`, team 1 the 400 of `Cc`. -/
theorem C8_collect_power_adds_team_sums_witness :
    collect_power_adds_team_sums heap_three tree_three teams_zero ∧
    __player_tree_collect_power heap_three tree_three teams_zero =
      some [⟨0, 800⟩, ⟨1, 400⟩] :=
  ⟨C8_collect_power_adds_team_sums heap_three tree_three teams_zero
    (by
      intro x hx
      simp only [tree_three, player_tree_node.ptrs, List.nil_append, List.mem_cons,
        List.cons_append, List.mem_singleton, List.not_mem_nil, or_false] at hx
      rcases hx with rfl | rfl | rfl
      · exact ⟨_, rfl, by decide⟩
      · exact ⟨_, rfl, by decide⟩
      · exact ⟨_, rfl, by decide⟩)
    (by
      intro i tm hi
      match i, hi with
      | 0, hi =>
        obtain rfl : (⟨0, 0⟩ : team) = tm := by simpa [teams_zero] using hi
        decide
      | 1, hi =>
        obtain rfl : (⟨1, 0⟩ : team) = tm := by simpa [teams_zero] using hi
        decide
      | i + 2, hi => simp [teams_zero] at hi),
   by decide⟩

/-! ## Facts about reading an action line -/

theorem scan_word_of_word {w rest : List Char} (hw : is_word w)
    (hrest : rest = [] ∨ ∃ c cs, rest = c :: cs ∧ isspace c = true) :
    scan_word (w ++ rest) = some (w, rest) := by
  obtain ⟨hne, hsp, _⟩ := hw
  have hall : ∀ c ∈ w, (fun x => !isspace x) c = true := by
    intro c hc
    simp [hsp c hc]
  have htake : (w ++ rest).takeWhile (fun x => !isspace x) = w := by
    rw [List.takeWhile_append_of_pos hall]
    rcases hrest with rfl | ⟨c, cs, rfl, hc⟩
    · simp
    · simp [hc]
  have hdrop : (w ++ rest).dropWhile (fun x => !isspace x) = rest := by
    rw [List.dropWhile_append_of_pos hall]
    rcases hrest with rfl | ⟨c, cs, rfl, hc⟩
    · simp
    · simp [hc]
  cases w with
  | nil => exact absurd rfl hne
  | cons c cs =>
    have hc : isspace c = false := hsp c (by simp)
    have hskip : ((c :: cs) ++ rest).dropWhile isspace = c :: (cs ++ rest) := by
      simp [hc]
    rw [scan_word, hskip]
    simp only
    rw [show c :: (cs ++ rest) = (c :: cs) ++ rest from rfl, htake, hdrop]

theorem scan_word_blank (s : List Char) : scan_word (Char.ofNat 32 :: s) = scan_word s := by
  have hsp : isspace (Char.ofNat 32) = true := by decide
  simp [scan_word, hsp]

theorem sscanf_words_action_line {kw n1 n2 : List Char}
    (hkw : is_word kw) (h1 : is_word n1) (h2 : is_word n2) :
    sscanf_words 3 (action_line kw n1 n2) = [kw, n1, n2] := by
  have hsp : isspace (Char.ofNat 32) = true := by decide
  have e1 : scan_word (kw ++ Char.ofNat 32 :: (n1 ++ Char.ofNat 32 :: n2)) =
      some (kw, Char.ofNat 32 :: (n1 ++ Char.ofNat 32 :: n2)) :=
    scan_word_of_word hkw (Or.inr ⟨_, _, rfl, hsp⟩)
  have e2 : scan_word (n1 ++ Char.ofNat 32 :: n2) = some (n1, Char.ofNat 32 :: n2) :=
    scan_word_of_word h1 (Or.inr ⟨_, _, rfl, hsp⟩)
  have e3 : scan_word n2 = some (n2, []) := by
    have h3 : scan_word (n2 ++ []) = some (n2, []) := scan_word_of_word h2 (Or.inl rfl)
    simpa using h3
  simp only [action_line, sscanf_words, e1, scan_word_blank, e2, e3]

theorem strcnt_word {w : List Char} (hw : is_word w) : strcnt w (Char.ofNat 32) = 0 := by
  rw [strcnt, List.count_eq_zero]
  intro hmem
  have := hw.2.1 _ hmem
  have hsp : isspace (Char.ofNat 32) = true := by decide
  rw [hsp] at this
  cases this

theorem strcnt_action_line {kw n1 n2 : List Char}
    (hkw : is_word kw) (h1 : is_word n1) (h2 : is_word n2) :
    strcnt (action_line kw n1 n2) (Char.ofNat 32) = 2 := by
  have a := strcnt_word hkw
  have b := strcnt_word h1
  have c := strcnt_word h2
  simp only [strcnt] at a b c
  simp [strcnt, action_line, List.count_cons, a, b, c]

/-- On a line of a keyword and two names `GET_TWO_PLAYERS` looks both names
up, the first one first. -/
theorem GET_TWO_PLAYERS_action_line (h : heap) (players : player_tree) {kw n1 n2 : List Char}
    (hkw : is_word kw) (h1 : is_word n1) (h2 : is_word n2) :
    GET_TWO_PLAYERS h players (action_line kw n1 n2) =
      match __player_tree_find h players n1 with
      | none => none
      | some none => some (.error .INPUT_ERROR)
      | some (some a1) =>
        match __player_tree_find h players n2 with
        | none => none
        | some none => some (.error .INPUT_ERROR)
        | some (some a2) => some (.ok (a1, a2)) := by
  have hlen : ([kw, n1, n2].any fun w => decide (100 ≤ w.length)) = false := by
    have a := hkw.2.2
    have b := h1.2.2
    have c := h2.2.2
    simp [a, b, c]
  simp only [GET_TWO_PLAYERS, sscanf_words_action_line hkw h1 h2, hlen,
    strcnt_action_line hkw h1 h2]
  simp

/-! ## Facts about the heap -/

theorem read_lt {h : heap} {a : Nat} {pl : player} (hr : h.read a = some pl) : a < h.length := by
  by_contra hlt
  have hnone : h[a]? = none := List.getElem?_eq_none (by omega)
  simp [heap.read, hnone] at hr

theorem read_set_self {h : heap} {a : Nat} (hlt : a < h.length) (v : Option player) :
    heap.read (h.set a v) a = v := by
  have hget : (h.set a v)[a]? = some v := List.getElem?_set_self hlt
  cases v <;> simp [heap.read, hget]

theorem read_set_ne {h : heap} {a b : Nat} (hne : a ≠ b) (v : Option player) :
    heap.read (h.set a v) b = h.read b := by
  simp [heap.read, List.getElem?_set_ne hne]

theorem freeze_of_read {h : heap} {a : Nat} {pl : player} (hr : h.read a = some pl) :
    __player_freeze h (some a) = some (h.set a (some { pl with power := 0 })) := by
  simp [__player_freeze, heap.write, hr]

theorem increase_power_of_read {h : heap} {a : Nat} {pl : player} (hr : h.read a = some pl)
    (power : Nat) :
    __player_increase_power h (some a) power =
      some (h.set a (some { pl with power :=
        (if (pl.power + power) % 65536 < MAX_POWER then (pl.power + power) % 65536
          else MAX_POWER) % 1024 })) := by
  simp [__player_increase_power, heap.write, hr]

/-- The capped sum that `increase_power` stores when the winner of an attack
takes the difference of the two powers. -/
theorem winner_power {w l : Nat} (hw : w < 1024) (hl : l < w) :
    (if (w + (w - l) % 65536) % 65536 < MAX_POWER then (w + (w - l) % 65536) % 65536
      else MAX_POWER) % 1024 = min 1000 (w + (w - l)) := by
  unfold MAX_POWER
  have e1 : (w - l) % 65536 = w - l := Nat.mod_eq_of_lt (by omega)
  have e2 : (w + (w - l)) % 65536 = w + (w - l) := Nat.mod_eq_of_lt (by omega)
  rw [e1, e2]
  split_ifs with hc
  · rw [Nat.mod_eq_of_lt (by omega)]
    omega
  · omega

/-! ## Claims about the attack -/

/-- C9: on a line naming two different players of the registry, the first
visible with power above 0, the second visible, the powers different, the
attack returns OK; the player with the higher power `w` gets
`min 1000 (w + (w - l))`, where `l` is the other power, the other player gets
power 0, and nothing else in the heap changes. -/
theorem C9_attack_unequal_powers (h : heap) (players : player_tree)
    (kw n1 n2 : List Char) (a1 a2 : Nat) (p1 p2 : player)
    (hkw : is_word kw) (hn1 : is_word n1) (hn2 : is_word n2)
    (hf1 : __player_tree_find h players n1 = some (some a1))
    (hf2 : __player_tree_find h players n2 = some (some a2))
    (hne : a1 ≠ a2) (hr1 : h.read a1 = some p1) (hr2 : h.read a2 = some p2)
    (hfit1 : p1.fits) (hfit2 : p2.fits)
    (hv1 : p1.is_visible ≠ 0) (hv2 : p2.is_visible ≠ 0)
    (hpos : 0 < p1.power) (hdiff : p1.power ≠ p2.power) :
    ∃ h1, __attack_state_action h players (action_line kw n1 n2) = some (h1, .OK) ∧
      (p2.power < p1.power →
        h1.read a1 = some { p1 with power := min 1000 (p1.power + (p1.power - p2.power)) } ∧
        h1.read a2 = some { p2 with power := 0 }) ∧
      (p1.power < p2.power →
        h1.read a2 = some { p2 with power := min 1000 (p2.power + (p2.power - p1.power)) } ∧
        h1.read a1 = some { p1 with power := 0 }) ∧
      (∀ b, b ≠ a1 → b ≠ a2 → h1.read b = h.read b) := by
  have hl1 := read_lt hr1
  have hl2 := read_lt hr2
  have hp0 : p1.power ≠ 0 := by omega
  have hcheck : GET_TWO_PLAYERS_AND_CHECK_FIRST h players (action_line kw n1 n2) =
      some (.ok (a1, a2)) := by
    simp [GET_TWO_PLAYERS_AND_CHECK_FIRST, GET_TWO_PLAYERS_action_line h players hkw hn1 hn2,
      hf1, hf2, hr1, hv1, hp0]
  rcases Nat.lt_or_gt_of_ne hdiff with hlt | hgt
  · -- the second player wins
    have hi := increase_power_of_read hr2 ((p2.power - p1.power) % 65536)
    rw [winner_power hfit2.1 hlt] at hi
    have hr1b : heap.read (h.set a2 (some { p2 with
        power := min 1000 (p2.power + (p2.power - p1.power)) })) a1 = some p1 := by
      rw [read_set_ne (Ne.symm hne)]
      exact hr1
    have hfz := freeze_of_read hr1b
    refine ⟨(h.set a2 (some { p2 with
      power := min 1000 (p2.power + (p2.power - p1.power)) })).set a1
        (some { p1 with power := 0 }), ?_, ?_, ?_, ?_⟩
    · simp only [__attack_state_action, hcheck, hr1, hr2]
      simp only [hv2, if_false, show ¬ p1.power > p2.power by omega, hlt, if_true, hi, hfz]
    · intro hc
      omega
    · intro _
      constructor
      · rw [read_set_ne hne, read_set_self hl2]
      · rw [read_set_self (by simpa using hl1)]
    · intro b hb1 hb2
      rw [read_set_ne (Ne.symm hb1), read_set_ne (Ne.symm hb2)]
  · -- the first player wins
    have hi := increase_power_of_read hr1 ((p1.power - p2.power) % 65536)
    rw [winner_power hfit1.1 hgt] at hi
    have hr2b : heap.read (h.set a1 (some { p1 with
        power := min 1000 (p1.power + (p1.power - p2.power)) })) a2 = some p2 := by
      rw [read_set_ne hne]
      exact hr2
    have hfz := freeze_of_read hr2b
    refine ⟨(h.set a1 (some { p1 with
      power := min 1000 (p1.power + (p1.power - p2.power)) })).set a2
        (some { p2 with power := 0 }), ?_, ?_, ?_, ?_⟩
    · simp only [__attack_state_action, hcheck, hr1, hr2]
      simp only [hv2, if_false, show p1.power > p2.power from hgt, if_true, hi, hfz]
    · intro _
      constructor
      · rw [read_set_ne (Ne.symm hne), read_set_self hl1]
      · rw [read_set_self (by simpa using hl2)]
    · intro hc
      omega
    · intro b hb1 hb2
      rw [read_set_ne (Ne.symm hb2), read_set_ne (Ne.symm hb1)]

/-- C9 at `Bb` with power 500 attacking `Aa` with power 300: `Bb` ends with
700 and `Aa` with 0. -/
theorem C9_attack_unequal_powers_witness :
    ∃ h1, __attack_state_action heap_three tree_three "attack Bb Aa".toList = some (h1, .OK) ∧
      h1.read 0 = some ⟨"Bb".toList, 700, 0, 1⟩ ∧
      h1.read 1 = some ⟨"Aa".toList, 0, 0, 1⟩ := by
  obtain ⟨h1, hrun, hw, _, _⟩ := C9_attack_unequal_powers heap_three tree_three
    "attack".toList "Bb".toList "Aa".toList 0 1 ⟨"Bb".toList, 500, 0, 1⟩ ⟨"Aa".toList, 300, 0, 1⟩
    (by decide) (by decide) (by decide) (by decide) (by decide) (by decide) rfl rfl
    (by decide) (by decide) (by decide) (by decide) (by decide) (by decide)
  exact ⟨h1, hrun, (hw (by decide)).1, (hw (by decide)).2⟩

/-- C10 as stated fails: `Aa` and `Bb` are visible with power 400 each, the
attack returns OK, and neither power is left unchanged, both are 0. -/
theorem C10_equal_attack_changes_powers :
    __attack_state_action heap_tie tree_tie "attack Aa Bb".toList =
      some ([some ⟨"Aa".toList, 0, 0, 1⟩, some ⟨"Bb".toList, 0, 1, 1⟩], .OK) ∧
    ¬ ∃ h1, __attack_state_action heap_tie tree_tie "attack Aa Bb".toList = some (h1, .OK) ∧
      (h1.read 0).map player.power = (heap_tie.read 0).map player.power ∧
      (h1.read 1).map player.power = (heap_tie.read 1).map player.power := by
  have hrun : __attack_state_action heap_tie tree_tie "attack Aa Bb".toList =
      some ([some ⟨"Aa".toList, 0, 0, 1⟩, some ⟨"Bb".toList, 0, 1, 1⟩], .OK) := by decide
  refine ⟨hrun, ?_⟩
  rintro ⟨h1, hh, hp, _⟩
  rw [hrun] at hh
  obtain rfl : [some ⟨"Aa".toList, 0, 0, 1⟩, some ⟨"Bb".toList, 0, 1, 1⟩] = h1 := by
    simpa using hh
  revert hp
  decide

/-- C10 as amended: on a line naming two different visible players of the
registry with equal power above 0, the attack returns OK and freezes both,
that is, sets the power of both to 0; their names, teams and visibility and
every other record stay as they were. -/
theorem C10_attack_equal_powers (h : heap) (players : player_tree)
    (kw n1 n2 : List Char) (a1 a2 : Nat) (p1 p2 : player)
    (hkw : is_word kw) (hn1 : is_word n1) (hn2 : is_word n2)
    (hf1 : __player_tree_find h players n1 = some (some a1))
    (hf2 : __player_tree_find h players n2 = some (some a2))
    (hne : a1 ≠ a2) (hr1 : h.read a1 = some p1) (hr2 : h.read a2 = some p2)
    (hv1 : p1.is_visible ≠ 0) (hv2 : p2.is_visible ≠ 0)
    (hpos : 0 < p1.power) (heq : p1.power = p2.power) :
    ∃ h1, __attack_state_action h players (action_line kw n1 n2) = some (h1, .OK) ∧
      h1.read a1 = some { p1 with power := 0 } ∧
      h1.read a2 = some { p2 with power := 0 } ∧
      (∀ b, b ≠ a1 → b ≠ a2 → h1.read b = h.read b) := by
  have hl1 := read_lt hr1
  have hl2 := read_lt hr2
  have hp0 : p1.power ≠ 0 := by omega
  have hcheck : GET_TWO_PLAYERS_AND_CHECK_FIRST h players (action_line kw n1 n2) =
      some (.ok (a1, a2)) := by
    simp [GET_TWO_PLAYERS_AND_CHECK_FIRST, GET_TWO_PLAYERS_action_line h players hkw hn1 hn2,
      hf1, hf2, hr1, hv1, hp0]
  have hfz1 := freeze_of_read hr1
  have hr2b : heap.read (h.set a1 (some { p1 with power := 0 })) a2 = some p2 := by
    rw [read_set_ne hne]
    exact hr2
  have hfz2 := freeze_of_read hr2b
  refine ⟨(h.set a1 (some { p1 with power := 0 })).set a2 (some { p2 with power := 0 }),
    ?_, ?_, ?_, ?_⟩
  · simp only [__attack_state_action, hcheck, hr1, hr2]
    simp only [hv2, if_false, show ¬ p1.power > p2.power by omega,
      show ¬ p1.power < p2.power by omega, hfz1, hfz2]
  · rw [read_set_ne (Ne.symm hne), read_set_self hl1]
  · rw [read_set_self (by simpa using hl2)]
  · intro b hb1 hb2
    rw [read_set_ne (Ne.symm hb2), read_set_ne (Ne.symm hb1)]

/-- C10 as amended, at `Aa` attacking `Bb`, both with power 400. -/
theorem C10_attack_equal_powers_witness :
    ∃ h1, __attack_state_action heap_tie tree_tie "attack Aa Bb".toList = some (h1, .OK) ∧
      h1.read 0 = some ⟨"Aa".toList, 0, 0, 1⟩ ∧
      h1.read 1 = some ⟨"Bb".toList, 0, 1, 1⟩ := by
  obtain ⟨h1, hrun, w1, w2, _⟩ := C10_attack_equal_powers heap_tie tree_tie
    "attack".toList "Aa".toList "Bb".toList 0 1 ⟨"Aa".toList, 400, 0, 1⟩ ⟨"Bb".toList, 400, 1, 1⟩
    (by decide) (by decide) (by decide) (by decide) (by decide) (by decide) rfl rfl
    (by decide) (by decide) (by decide) rfl
  exact ⟨h1, hrun, w1, w2⟩

/-! ## Facts about the check of the first player -/

/-- On a line of a keyword and two names that are both found, the check of the
first player looks at its visibility and then at its power, and at nothing
of the second player. -/
theorem CHECK_FIRST_action_line (h : heap) (players : player_tree) {kw n1 n2 : List Char}
    (hkw : is_word kw) (hn1 : is_word n1) (hn2 : is_word n2) {a1 a2 : Nat} {p1 : player}
    (hf1 : __player_tree_find h players n1 = some (some a1))
    (hf2 : __player_tree_find h players n2 = some (some a2))
    (hr1 : h.read a1 = some p1) :
    GET_TWO_PLAYERS_AND_CHECK_FIRST h players (action_line kw n1 n2) =
      if p1.is_visible = 0 then some (.error .PLAYER_IS_INVISIBLE)
      else if p1.power = 0 then some (.error .PLAYER_IS_FROZEN)
      else some (.ok (a1, a2)) := by
  simp [GET_TWO_PLAYERS_AND_CHECK_FIRST, GET_TWO_PLAYERS_action_line h players hkw hn1 hn2,
    hf1, hf2, hr1]

theorem write_of_read {h : heap} {a : Nat} {pl : player} (hr : h.read a = some pl)
    (pl1 : player) : h.write a pl1 = some (h.set a (some pl1)) := by
  simp [heap.write, hr]

/-- What `heal` stores: the half for the healer, and the capped sum for the
healed player. -/
theorem heal_power {x y : Nat} (hx : x < 1024) (hy : y < 1024) :
    ((x + 1) / 2) % 65536 % 1024 = (x + 1) / 2 ∧
    (if (y + ((x + 1) / 2) % 65536) % 65536 < MAX_POWER then (y + ((x + 1) / 2) % 65536) % 65536
      else MAX_POWER) % 1024 = min 1000 (y + (x + 1) / 2) := by
  unfold MAX_POWER
  have e1 : ((x + 1) / 2) % 65536 = (x + 1) / 2 := Nat.mod_eq_of_lt (by omega)
  have e2 : (y + (x + 1) / 2) % 65536 = y + (x + 1) / 2 := Nat.mod_eq_of_lt (by omega)
  rw [e1, e2]
  constructor
  · exact Nat.mod_eq_of_lt (by omega)
  · split_ifs with hc
    · rw [Nat.mod_eq_of_lt (by omega)]
      omega
    · omega

/-! ## Claims about attack, heal and super -/

/-- C11: on a line naming two players of the registry, the first visible with
power above 0 and the second invisible, the attack returns OK, sets the
power of the first to 0 and leaves the second and every other record as it
was, whatever the two powers are. -/
theorem C11_attack_invisible_target (h : heap) (players : player_tree)
    (kw n1 n2 : List Char) (a1 a2 : Nat) (p1 p2 : player)
    (hkw : is_word kw) (hn1 : is_word n1) (hn2 : is_word n2)
    (hf1 : __player_tree_find h players n1 = some (some a1))
    (hf2 : __player_tree_find h players n2 = some (some a2))
    (hr1 : h.read a1 = some p1) (hr2 : h.read a2 = some p2)
    (hv1 : p1.is_visible ≠ 0) (hpos : 0 < p1.power) (hv2 : p2.is_visible = 0) :
    ∃ h1, __attack_state_action h players (action_line kw n1 n2) = some (h1, .OK) ∧
      h1.read a1 = some { p1 with power := 0 } ∧
      h1.read a2 = some p2 ∧
      (∀ b, b ≠ a1 → h1.read b = h.read b) := by
  have hl1 := read_lt hr1
  have hp0 : p1.power ≠ 0 := by omega
  have hne : a1 ≠ a2 := by
    rintro rfl
    rw [hr1] at hr2
    cases hr2
    exact hv1 hv2
  have hcheck := CHECK_FIRST_action_line h players hkw hn1 hn2 hf1 hf2 hr1
  simp only [hv1, hp0, if_false] at hcheck
  refine ⟨h.set a1 (some { p1 with power := 0 }), ?_, ?_, ?_, ?_⟩
  · simp only [__attack_state_action, hcheck, hr1, hr2]
    simp only [hv2, if_true, freeze_of_read hr1]
  · rw [read_set_self hl1]
  · rw [read_set_ne hne, hr2]
  · intro b hb
    rw [read_set_ne (Ne.symm hb)]

/-- C11 at `Bb` attacking `Aa` made invisible: `Bb` ends with power 0. -/
theorem C11_attack_invisible_target_witness :
    ∃ h1, __attack_state_action
        [some ⟨"Bb".toList, 500, 0, 1⟩, some ⟨"Aa".toList, 300, 0, 0⟩,
          some ⟨"Cc".toList, 400, 1, 1⟩] tree_three "attack Bb Aa".toList = some (h1, .OK) ∧
      h1.read 0 = some ⟨"Bb".toList, 0, 0, 1⟩ ∧
      h1.read 1 = some ⟨"Aa".toList, 300, 0, 0⟩ ∧
      h1.read 2 = some ⟨"Cc".toList, 400, 1, 1⟩ := by
  obtain ⟨h1, hrun, w1, w2, w3⟩ := C11_attack_invisible_target
    [some ⟨"Bb".toList, 500, 0, 1⟩, some ⟨"Aa".toList, 300, 0, 0⟩,
      some ⟨"Cc".toList, 400, 1, 1⟩] tree_three
    "attack".toList "Bb".toList "Aa".toList 0 1 ⟨"Bb".toList, 500, 0, 1⟩ ⟨"Aa".toList, 300, 0, 0⟩
    (by decide) (by decide) (by decide) (by decide) (by decide) rfl rfl
    (by decide) (by decide) rfl
  exact ⟨h1, hrun, w1, w2, w3 2 (by decide)⟩

/-- C12 as stated fails: `Aa` with power 9 heals `Bb` with power 0 of the same
team; the result is OK with 5 for `Aa` and 5 for `Bb`, not 5 and 4. -/
theorem C12_heal_gives_ceiling_to_both :
    __heal_state_action heap_heal tree_tie "heal Aa Bb".toList =
      some ([some ⟨"Aa".toList, 5, 0, 1⟩, some ⟨"Bb".toList, 5, 0, 1⟩], .OK) ∧
    ¬ ∃ h1, __heal_state_action heap_heal tree_tie "heal Aa Bb".toList = some (h1, .OK) ∧
      (h1.read 0).map player.power = some ((9 + 1) / 2) ∧
      (h1.read 1).map player.power = some (min 1000 (0 + 9 / 2)) := by
  have hrun : __heal_state_action heap_heal tree_tie "heal Aa Bb".toList =
      some ([some ⟨"Aa".toList, 5, 0, 1⟩, some ⟨"Bb".toList, 5, 0, 1⟩], .OK) := by decide
  refine ⟨hrun, ?_⟩
  rintro ⟨h1, hh, _, hp⟩
  rw [hrun] at hh
  obtain rfl : [some ⟨"Aa".toList, 5, 0, 1⟩, some ⟨"Bb".toList, 5, 0, 1⟩] = h1 := by
    simpa using hh
  revert hp
  decide

/-- C12 as amended: on a line naming two different players of the registry of
the same team, the first visible with power `x` above 0, the second with
power `y`, heal returns OK; afterwards the first has power `(x + 1) / 2` and
the second has `min 1000 (y + (x + 1) / 2)`: the same rounded-up half is kept
and given.  Nothing else in the heap changes. -/
theorem C12_heal_powers (h : heap) (players : player_tree)
    (kw n1 n2 : List Char) (a1 a2 : Nat) (p1 p2 : player)
    (hkw : is_word kw) (hn1 : is_word n1) (hn2 : is_word n2)
    (hf1 : __player_tree_find h players n1 = some (some a1))
    (hf2 : __player_tree_find h players n2 = some (some a2))
    (hne : a1 ≠ a2) (hr1 : h.read a1 = some p1) (hr2 : h.read a2 = some p2)
    (hfit1 : p1.fits) (hfit2 : p2.fits)
    (hteam : p1.team_number = p2.team_number)
    (hv1 : p1.is_visible ≠ 0) (hpos : 0 < p1.power) :
    ∃ h1, __heal_state_action h players (action_line kw n1 n2) = some (h1, .OK) ∧
      h1.read a1 = some { p1 with power := (p1.power + 1) / 2 } ∧
      h1.read a2 = some { p2 with power := min 1000 (p2.power + (p1.power + 1) / 2) } ∧
      (∀ b, b ≠ a1 → b ≠ a2 → h1.read b = h.read b) := by
  have hl1 := read_lt hr1
  have hl2 := read_lt hr2
  have hp0 : p1.power ≠ 0 := by omega
  have hcheck := CHECK_FIRST_action_line h players hkw hn1 hn2 hf1 hf2 hr1
  simp only [hv1, hp0, if_false] at hcheck
  obtain ⟨e1, e2⟩ := heal_power hfit1.1 hfit2.1
  have hw := write_of_read hr1 { p1 with power := ((p1.power + 1) / 2) % 65536 % 1024 }
  rw [e1] at hw
  have hr2b : heap.read (h.set a1 (some { p1 with power := (p1.power + 1) / 2 })) a2 =
      some p2 := by
    rw [read_set_ne hne]
    exact hr2
  have hi := increase_power_of_read hr2b (((p1.power + 1) / 2) % 65536)
  rw [e2] at hi
  refine ⟨(h.set a1 (some { p1 with power := (p1.power + 1) / 2 })).set a2
    (some { p2 with power := min 1000 (p2.power + (p1.power + 1) / 2) }), ?_, ?_, ?_, ?_⟩
  · simp only [__heal_state_action, hcheck, hr1, hr2]
    rw [if_neg (not_not.mpr hteam), if_neg hne]
    simp only [e1, hw, hi]
  · rw [read_set_ne (Ne.symm hne), read_set_self hl1]
  · rw [read_set_self (by simpa using hl2)]
  · intro b hb1 hb2
    rw [read_set_ne (Ne.symm hb2), read_set_ne (Ne.symm hb1)]

/-- C12 as amended, at `Aa` with power 9 healing `Bb` with power 0: both end
with power 5. -/
theorem C12_heal_powers_witness :
    ∃ h1, __heal_state_action heap_heal tree_tie "heal Aa Bb".toList = some (h1, .OK) ∧
      h1.read 0 = some ⟨"Aa".toList, 5, 0, 1⟩ ∧
      h1.read 1 = some ⟨"Bb".toList, 5, 0, 1⟩ := by
  obtain ⟨h1, hrun, w1, w2, _⟩ := C12_heal_powers heap_heal tree_tie
    "heal".toList "Aa".toList "Bb".toList 0 1 ⟨"Aa".toList, 9, 0, 1⟩ ⟨"Bb".toList, 0, 0, 1⟩
    (by decide) (by decide) (by decide) (by decide) (by decide) (by decide) rfl rfl
    (by decide) (by decide) rfl (by decide) (by decide)
  exact ⟨h1, hrun, w1, w2⟩

/-- The super action on the two records of `heap_super`, neither of whose
nodes has two children: `S_0` with power 1000 of team 1 is stored, the
records of `Aa` and `Bb` are freed, the counter becomes 1. -/
theorem super_of_two_players :
    __super_state_action heap_super tree_tie 0 "super Aa Bb".toList =
      some (([none, none, some ⟨"S_0".toList, 1000, 1, 1⟩],
        { __root := .node (some 2) .NULL .NULL, __size := 1 }, 1), .OK) := by
  decide

/-- C13, evaluated where it fails: `Bb` and `Aa` are different visible players
of team 0 in the ordered tree `tree_three`, `Bb` has power 500, the counter is
0 and `S_0` is not in the registry.  The super action inserts `S_0` and
removes `Bb`, a node with two children; that removal frees the record of
`Cc`, which the root then points to, and the removal of `Aa` that follows
reads the freed record: the action has no defined result. -/
theorem C13_super_undefined_for_two_child_player :
    ordered heap_three tree_three.__root ∧
    __player_tree_find heap_three tree_three "Bb".toList = some (some 0) ∧
    __player_tree_find heap_three tree_three "Aa".toList = some (some 1) ∧
    __player_tree_find heap_three tree_three (super_name 0) = some none ∧
    __super_state_action heap_three tree_three 0 "super Bb Aa".toList = none :=
  ⟨tree_three_ordered _ rfl rfl rfl, by decide, by decide, by decide, by decide⟩

/-! ## Facts about the states -/

theorem attack_not_ok {h : heap} {players : player_tree} {input : List Char} {h1 : heap}
    {st : action_status} (hrun : __attack_state_action h players input = some (h1, st))
    (hst : st ≠ .OK) : h1 = h := by
  simp only [__attack_state_action] at hrun
  repeat' split at hrun
  all_goals first
    | (cases hrun; done)
    | (cases hrun; rfl)
    | (cases hrun; exact absurd rfl hst)

theorem flip_not_ok {h : heap} {players : player_tree} {input : List Char} {h1 : heap}
    {st : action_status} (hrun : __flip_visibility_state_action h players input = some (h1, st))
    (hst : st ≠ .OK) : h1 = h := by
  simp only [__flip_visibility_state_action] at hrun
  repeat' split at hrun
  all_goals first
    | (cases hrun; done)
    | (cases hrun; rfl)
    | (cases hrun; exact absurd rfl hst)

theorem heal_not_ok {h : heap} {players : player_tree} {input : List Char} {h1 : heap}
    {st : action_status} (hrun : __heal_state_action h players input = some (h1, st))
    (hst : st ≠ .OK) : h1 = h := by
  simp only [__heal_state_action] at hrun
  repeat' split at hrun
  all_goals first
    | (cases hrun; done)
    | (cases hrun; rfl)
    | (cases hrun; exact absurd rfl hst)

theorem super_not_ok {h : heap} {players : player_tree} {n : Nat} {input : List Char}
    {r : heap × player_tree × Nat} {st : action_status}
    (hrun : __super_state_action h players n input = some (r, st))
    (hst : st ≠ .OK) : r = (h, players, n) := by
  simp only [__super_state_action] at hrun
  repeat' split at hrun
  all_goals first
    | (cases hrun; done)
    | (cases hrun; rfl)
    | (cases hrun; exact absurd rfl hst)

/-- A status that the check of the first player returns is returned by the
attack, heal and super states with nothing changed. -/
theorem states_of_check_error {i : Nat} (hi : i = 0 ∨ i = 2 ∨ i = 3) {g : game}
    {input : List Char} {st : action_status}
    (hc : GET_TWO_PLAYERS_AND_CHECK_FIRST g.mem g.players input = some (.error st)) :
    state_machine_states i g input = some (g, st) := by
  rcases hi with rfl | rfl | rfl
  · simp [state_machine_states, __attack_state_action, hc]
  · simp [state_machine_states, __heal_state_action, hc]
  · simp [state_machine_states, __super_state_action, hc]

theorem attack_after_check {h h1 : heap} {players : player_tree} {input : List Char}
    {pr : Nat × Nat} {st : action_status}
    (hc : GET_TWO_PLAYERS_AND_CHECK_FIRST h players input = some (.ok pr))
    (hrun : __attack_state_action h players input = some (h1, st)) : st = .OK := by
  simp only [__attack_state_action, hc] at hrun
  repeat' split at hrun
  all_goals first
    | (cases hrun; done)
    | (cases hrun; rfl)

theorem heal_after_check {h h1 : heap} {players : player_tree} {input : List Char}
    {pr : Nat × Nat} {st : action_status}
    (hc : GET_TWO_PLAYERS_AND_CHECK_FIRST h players input = some (.ok pr))
    (hrun : __heal_state_action h players input = some (h1, st)) :
    st = .WRONG_TEAM ∨ st = .HEAL_SELF ∨ st = .OK := by
  simp only [__heal_state_action, hc] at hrun
  repeat' split at hrun
  all_goals first
    | (cases hrun; done)
    | (cases hrun; exact Or.inl rfl)
    | (cases hrun; exact Or.inr (Or.inl rfl))
    | (cases hrun; exact Or.inr (Or.inr rfl))

theorem super_after_check {h : heap} {players : player_tree} {n : Nat} {input : List Char}
    {r : heap × player_tree × Nat} {pr : Nat × Nat} {st : action_status}
    (hc : GET_TWO_PLAYERS_AND_CHECK_FIRST h players input = some (.ok pr))
    (hrun : __super_state_action h players n input = some (r, st)) :
    st = .WRONG_TEAM ∨ st = .SUPER_SELF ∨ st = .OK := by
  simp only [__super_state_action, hc] at hrun
  repeat' split at hrun
  all_goals first
    | (cases hrun; done)
    | (cases hrun; exact Or.inl rfl)
    | (cases hrun; exact Or.inr (Or.inl rfl))
    | (cases hrun; exact Or.inr (Or.inr rfl))

/-- After a passed check of the first player, the attack, heal and super
states return none of the statuses of that check. -/
theorem states_after_check {i : Nat} (hi : i = 0 ∨ i = 2 ∨ i = 3) {g g1 : game}
    {input : List Char} {pr : Nat × Nat} {st : action_status}
    (hc : GET_TWO_PLAYERS_AND_CHECK_FIRST g.mem g.players input = some (.ok pr))
    (hrun : state_machine_states i g input = some (g1, st)) :
    st ≠ .INPUT_ERROR ∧ st ≠ .PLAYER_IS_INVISIBLE ∧ st ≠ .PLAYER_IS_FROZEN := by
  rcases hi with rfl | rfl | rfl
  · simp only [state_machine_states] at hrun
    split at hrun
    · cases hrun
    · rename_i h1 st1 hh
      cases hrun
      rw [attack_after_check hc hh]
      exact ⟨by decide, by decide, by decide⟩
  · simp only [state_machine_states] at hrun
    split at hrun
    · cases hrun
    · rename_i h1 st1 hh
      cases hrun
      rcases heal_after_check hc hh with e | e | e <;> rw [e] <;>
        exact ⟨by decide, by decide, by decide⟩
  · simp only [state_machine_states] at hrun
    split at hrun
    · cases hrun
    · rename_i h1 p1 n1 st1 hh
      cases hrun
      rcases super_after_check hc hh with e | e | e <;> rw [e] <;>
        exact ⟨by decide, by decide, by decide⟩

theorem sscanf_words_action_line_one {kw n : List Char} (hkw : is_word kw) (hn : is_word n) :
    sscanf_words 2 (action_line_one kw n) = [kw, n] := by
  have hsp : isspace (Char.ofNat 32) = true := by decide
  have e1 : scan_word (kw ++ Char.ofNat 32 :: n) = some (kw, Char.ofNat 32 :: n) :=
    scan_word_of_word hkw (Or.inr ⟨_, _, rfl, hsp⟩)
  have e2 : scan_word n = some (n, []) := by
    have h3 : scan_word (n ++ []) = some (n, []) := scan_word_of_word hn (Or.inl rfl)
    simpa using h3
  simp only [action_line_one, sscanf_words, e1, scan_word_blank, e2]

theorem strcnt_action_line_one {kw n : List Char} (hkw : is_word kw) (hn : is_word n) :
    strcnt (action_line_one kw n) (Char.ofNat 32) = 1 := by
  have a := strcnt_word hkw
  have b := strcnt_word hn
  simp only [strcnt] at a b
  simp [strcnt, action_line_one, List.count_cons, a, b]

/-- On a line of a keyword and one name the flip visibility state looks the
name up and goes on with the player found. -/
theorem flip_action_line_one (h : heap) (players : player_tree) {kw n : List Char}
    (hkw : is_word kw) (hn : is_word n) :
    __flip_visibility_state_action h players (action_line_one kw n) =
      match __player_tree_find h players n with
      | none => none
      | some none => some (h, .INPUT_ERROR)
      | some (some a) =>
        match h.read a with
        | none => none
        | some pl =>
          if pl.power = 0 then some (h, .PLAYER_IS_FROZEN)
          else
            match h.write a { pl with is_visible := (if pl.is_visible = 0 then 1 else 0) % 2 } with
            | none => none
            | some h1 => some (h1, .OK) := by
  have hlen : ([kw, n].any fun w => decide (100 ≤ w.length)) = false := by
    have a := hkw.2.2
    have b := hn.2.2
    simp [a, b]
  simp only [__flip_visibility_state_action, sscanf_words_action_line_one hkw hn, hlen,
    strcnt_action_line_one hkw hn]
  simp

/-! ## Claims about the statuses -/

/-- C16: whichever of the four states (attack, flip visibility, heal, super)
runs on whichever game and line, if it returns a status other than OK then
the heap of players, the tree with its size and the counter of super players
are exactly as before the call. -/
theorem C16_non_ok_changes_nothing (i : Nat) (g g1 : game) (input : List Char)
    (st : action_status) (hrun : state_machine_states i g input = some (g1, st))
    (hst : st ≠ .OK) : g1 = g := by
  match i, hrun with
  | 0, hrun =>
    simp only [state_machine_states] at hrun
    split at hrun
    · cases hrun
    · rename_i h1 st1 hh
      cases hrun
      rw [attack_not_ok hh hst]
  | 1, hrun =>
    simp only [state_machine_states] at hrun
    split at hrun
    · cases hrun
    · rename_i h1 st1 hh
      cases hrun
      rw [flip_not_ok hh hst]
  | 2, hrun =>
    simp only [state_machine_states] at hrun
    split at hrun
    · cases hrun
    · rename_i h1 st1 hh
      cases hrun
      rw [heal_not_ok hh hst]
  | 3, hrun =>
    simp only [state_machine_states] at hrun
    split at hrun
    · cases hrun
    · rename_i h1 p1 n1 st1 hh
      cases hrun
      have e := super_not_ok hh hst
      cases e
      rfl
  | i + 4, hrun => simp [state_machine_states] at hrun

/-- C16 at the super state asked to merge `Aa` of team 0 with `Cc` of team 1:
it returns WRONG_TEAM and the game is the one before. -/
theorem C16_non_ok_changes_nothing_witness :
    state_machine_states 3 game_three "super Aa Cc".toList =
      some (game_three, .WRONG_TEAM) ∧ game_three = game_three :=
  ⟨by decide, C16_non_ok_changes_nothing 3 game_three game_three "super Aa Cc".toList
    .WRONG_TEAM (by decide) (by decide)⟩

/-- C17: for attack, heal and super (the states 0, 2 and 3) on a line of a
keyword and two names: if the first name is not found, or the first is found
and the second is not, the result is INPUT_ERROR; with both found, an
invisible first player gives PLAYER_IS_INVISIBLE whatever its power is; a
visible first player with power 0 gives PLAYER_IS_FROZEN; and with the first
player visible and its power above 0 none of these three statuses is
returned, whatever the second player's visibility and power are.  In the
first four cases nothing is changed. -/
theorem C17_precheck_order (i : Nat) (hi : i = 0 ∨ i = 2 ∨ i = 3) (g : game)
    (kw n1 n2 : List Char) (hkw : is_word kw) (hn1 : is_word n1) (hn2 : is_word n2) :
    (__player_tree_find g.mem g.players n1 = some none →
      state_machine_states i g (action_line kw n1 n2) = some (g, .INPUT_ERROR)) ∧
    (∀ a1, __player_tree_find g.mem g.players n1 = some (some a1) →
      __player_tree_find g.mem g.players n2 = some none →
      state_machine_states i g (action_line kw n1 n2) = some (g, .INPUT_ERROR)) ∧
    (∀ a1 a2 p1, __player_tree_find g.mem g.players n1 = some (some a1) →
      __player_tree_find g.mem g.players n2 = some (some a2) →
      g.mem.read a1 = some p1 →
      (p1.is_visible = 0 →
        state_machine_states i g (action_line kw n1 n2) = some (g, .PLAYER_IS_INVISIBLE)) ∧
      (p1.is_visible ≠ 0 → p1.power = 0 →
        state_machine_states i g (action_line kw n1 n2) = some (g, .PLAYER_IS_FROZEN)) ∧
      (p1.is_visible ≠ 0 → p1.power ≠ 0 → ∀ g1 st,
        state_machine_states i g (action_line kw n1 n2) = some (g1, st) →
        st ≠ .INPUT_ERROR ∧ st ≠ .PLAYER_IS_INVISIBLE ∧ st ≠ .PLAYER_IS_FROZEN)) := by
  refine ⟨?_, ?_, ?_⟩
  · intro hf1
    apply states_of_check_error hi
    simp [GET_TWO_PLAYERS_AND_CHECK_FIRST, GET_TWO_PLAYERS_action_line _ _ hkw hn1 hn2, hf1]
  · intro a1 hf1 hf2
    apply states_of_check_error hi
    simp [GET_TWO_PLAYERS_AND_CHECK_FIRST, GET_TWO_PLAYERS_action_line _ _ hkw hn1 hn2, hf1, hf2]
  · intro a1 a2 p1 hf1 hf2 hr1
    have hcheck := CHECK_FIRST_action_line g.mem g.players hkw hn1 hn2 hf1 hf2 hr1
    refine ⟨?_, ?_, ?_⟩
    · intro hv
      apply states_of_check_error hi
      simp only [hv, if_true] at hcheck
      exact hcheck
    · intro hv hp
      apply states_of_check_error hi
      simp only [hv, hp, if_true, if_false] at hcheck
      exact hcheck
    · intro hv hp g1 st hrun
      simp only [hv, hp, if_false] at hcheck
      exact states_after_check hi hcheck hrun

/-- C17 at heal on the game in which `Aa` is invisible and `Cc` is frozen: an
unknown first or second name gives INPUT_ERROR, `Aa` first gives
PLAYER_IS_INVISIBLE, `Cc` first gives PLAYER_IS_FROZEN. -/
theorem C17_precheck_order_witness :
    state_machine_states 2 game_three_hidden "heal Zz Bb".toList =
      some (game_three_hidden, .INPUT_ERROR) ∧
    state_machine_states 2 game_three_hidden "heal Bb Zz".toList =
      some (game_three_hidden, .INPUT_ERROR) ∧
    state_machine_states 2 game_three_hidden "heal Aa Bb".toList =
      some (game_three_hidden, .PLAYER_IS_INVISIBLE) ∧
    state_machine_states 2 game_three_hidden "heal Cc Bb".toList =
      some (game_three_hidden, .PLAYER_IS_FROZEN) :=
  ⟨(C17_precheck_order 2 (by decide) game_three_hidden "heal".toList "Zz".toList "Bb".toList
      (by decide) (by decide) (by decide)).1 (by decide),
    (C17_precheck_order 2 (by decide) game_three_hidden "heal".toList "Bb".toList "Zz".toList
      (by decide) (by decide) (by decide)).2.1 0 (by decide) (by decide),
    ((C17_precheck_order 2 (by decide) game_three_hidden "heal".toList "Aa".toList "Bb".toList
      (by decide) (by decide) (by decide)).2.2 1 0 ⟨"Aa".toList, 300, 0, 0⟩
      (by decide) (by decide) rfl).1 rfl,
    ((C17_precheck_order 2 (by decide) game_three_hidden "heal".toList "Cc".toList "Bb".toList
      (by decide) (by decide) (by decide)).2.2 2 0 ⟨"Cc".toList, 0, 1, 1⟩
      (by decide) (by decide) rfl).2.1 (by decide) rfl⟩

/-- C18: on a line of a keyword and one name, the flip visibility state
returns INPUT_ERROR when the name is not found and PLAYER_IS_FROZEN when the
player found has power 0, both with nothing changed; otherwise it returns OK
with the player's `is_visible` negated (1 becomes 0, 0 becomes 1), its name,
power and team and every other record as before. -/
theorem C18_flip_visibility (h : heap) (players : player_tree) (kw n : List Char)
    (hkw : is_word kw) (hn : is_word n) :
    (__player_tree_find h players n = some none →
      __flip_visibility_state_action h players (action_line_one kw n) =
        some (h, .INPUT_ERROR)) ∧
    (∀ a pl, __player_tree_find h players n = some (some a) → h.read a = some pl →
      (pl.power = 0 →
        __flip_visibility_state_action h players (action_line_one kw n) =
          some (h, .PLAYER_IS_FROZEN)) ∧
      (pl.power ≠ 0 →
        ∃ h1, __flip_visibility_state_action h players (action_line_one kw n) =
            some (h1, .OK) ∧
          h1.read a = some { pl with is_visible := if pl.is_visible = 0 then 1 else 0 } ∧
          (∀ b, b ≠ a → h1.read b = h.read b))) := by
  have hline := flip_action_line_one h players hkw hn
  refine ⟨?_, ?_⟩
  · intro hf
    rw [hline, hf]
  · intro a pl hf hr
    refine ⟨?_, ?_⟩
    · intro hp
      rw [hline, hf]
      simp [hr, hp]
    · intro hp
      have hmod : (if pl.is_visible = 0 then 1 else 0) % 2 =
          if pl.is_visible = 0 then 1 else 0 := by
        split_ifs <;> rfl
      refine ⟨h.set a (some { pl with is_visible := if pl.is_visible = 0 then 1 else 0 }),
        ?_, ?_, ?_⟩
      · rw [hline, hf]
        simp only [hr, hp, if_false, hmod, write_of_read hr]
      · rw [read_set_self (read_lt hr)]
      · intro b hb
        rw [read_set_ne (Ne.symm hb)]

/-- C18 at `flip_visibility Aa` on the three records: `Aa` becomes
invisible. -/
theorem C18_flip_visibility_witness :
    ∃ h1, __flip_visibility_state_action heap_three tree_three "flip_visibility Aa".toList =
        some (h1, .OK) ∧
      h1.read 1 = some ⟨"Aa".toList, 300, 0, 0⟩ ∧
      h1.read 0 = some ⟨"Bb".toList, 500, 0, 1⟩ := by
  obtain ⟨h1, hrun, w1, w2⟩ := ((C18_flip_visibility heap_three tree_three
    "flip_visibility".toList "Aa".toList (by decide) (by decide)).2 1 ⟨"Aa".toList, 300, 0, 1⟩
    (by decide) rfl).2 (by decide)
  exact ⟨h1, hrun, w1, w2 0 (by decide)⟩

/-- C19: for a visible player of the registry with power above 0, a line that
names it twice makes heal return HEAL_SELF and super return SUPER_SELF; the
heap, the tree and the counter of super players are as before. -/
theorem C19_self_target (h : heap) (players : player_tree) (index_of_super : Nat)
    (kw n : List Char) (a : Nat) (p : player)
    (hkw : is_word kw) (hn : is_word n)
    (hf : __player_tree_find h players n = some (some a)) (hr : h.read a = some p)
    (hv : p.is_visible ≠ 0) (hpos : 0 < p.power) :
    __heal_state_action h players (action_line kw n n) = some (h, .HEAL_SELF) ∧
    __super_state_action h players index_of_super (action_line kw n n) =
      some ((h, players, index_of_super), .SUPER_SELF) := by
  have hp0 : p.power ≠ 0 := by omega
  have hcheck := CHECK_FIRST_action_line h players hkw hn hn hf hf hr
  simp only [hv, hp0, if_false] at hcheck
  constructor
  · simp [__heal_state_action, hcheck, hr]
  · simp [__super_state_action, hcheck, hr]

/-- C19 at `Aa` of the three records. -/
theorem C19_self_target_witness :
    __heal_state_action heap_three tree_three "heal Aa Aa".toList =
      some (heap_three, .HEAL_SELF) ∧
    __super_state_action heap_three tree_three 0 "super Aa Aa".toList =
      some ((heap_three, tree_three, 0), .SUPER_SELF) :=
  ⟨(C19_self_target heap_three tree_three 0 "heal".toList "Aa".toList 1
      ⟨"Aa".toList, 300, 0, 1⟩ (by decide) (by decide) (by decide) rfl
      (by decide) (by decide)).1,
   (C19_self_target heap_three tree_three 0 "super".toList "Aa".toList 1
      ⟨"Aa".toList, 300, 0, 1⟩ (by decide) (by decide) (by decide) rfl
      (by decide) (by decide)).2⟩

/-- C20: for two players of the registry of different teams, the first visible
with power above 0, heal and super both return WRONG_TEAM; the heap (so every
player), the tree and the counter of super players are as before: no player
is created or removed. -/
theorem C20_wrong_team (h : heap) (players : player_tree) (index_of_super : Nat)
    (kw n1 n2 : List Char) (a1 a2 : Nat) (p1 p2 : player)
    (hkw : is_word kw) (hn1 : is_word n1) (hn2 : is_word n2)
    (hf1 : __player_tree_find h players n1 = some (some a1))
    (hf2 : __player_tree_find h players n2 = some (some a2))
    (hr1 : h.read a1 = some p1) (hr2 : h.read a2 = some p2)
    (hv1 : p1.is_visible ≠ 0) (hpos : 0 < p1.power)
    (hteam : p1.team_number ≠ p2.team_number) :
    __heal_state_action h players (action_line kw n1 n2) = some (h, .WRONG_TEAM) ∧
    __super_state_action h players index_of_super (action_line kw n1 n2) =
      some ((h, players, index_of_super), .WRONG_TEAM) := by
  have hp0 : p1.power ≠ 0 := by omega
  have hcheck := CHECK_FIRST_action_line h players hkw hn1 hn2 hf1 hf2 hr1
  simp only [hv1, hp0, if_false] at hcheck
  constructor
  · simp [__heal_state_action, hcheck, hr1, hr2, hteam]
  · simp [__super_state_action, hcheck, hr1, hr2, hteam]

/-- C20 at `Aa` of team 0 and `Cc` of team 1 of the three records. -/
theorem C20_wrong_team_witness :
    __heal_state_action heap_three tree_three "heal Aa Cc".toList =
      some (heap_three, .WRONG_TEAM) ∧
    __super_state_action heap_three tree_three 0 "super Aa Cc".toList =
      some ((heap_three, tree_three, 0), .WRONG_TEAM) :=
  ⟨(C20_wrong_team heap_three tree_three 0 "heal".toList "Aa".toList "Cc".toList 1 2
      ⟨"Aa".toList, 300, 0, 1⟩ ⟨"Cc".toList, 400, 1, 1⟩ (by decide) (by decide) (by decide)
      (by decide) (by decide) rfl rfl (by decide) (by decide) (by decide)).1,
   (C20_wrong_team heap_three tree_three 0 "super".toList "Aa".toList "Cc".toList 1 2
      ⟨"Aa".toList, 300, 0, 1⟩ ⟨"Cc".toList, 400, 1, 1⟩ (by decide) (by decide) (by decide)
      (by decide) (by decide) rfl rfl (by decide) (by decide) (by decide)).2⟩

/-! ## How the states change the heap -/

theorem min_player_mem : ∀ {t : player_tree_node} {q : Option Nat},
    (__player_tree_node_min t).player_field = some q → q ∈ t.ptrs
  | .NULL, _, hq => by simp [__player_tree_node_min, player_tree_node.player_field] at hq
  | .node p .NULL r, q, hq => by
    simp only [__player_tree_node_min, player_tree_node.player_field, Option.some.injEq] at hq
    simp [player_tree_node.ptrs, hq]
  | .node p (.node p1 l1 r1) r, q, hq => by
    rw [__player_tree_node_min] at hq
    case x_1 => exact fun e => player_tree_node.noConfusion e
    have := min_player_mem hq
    simp only [player_tree_node.ptrs, List.mem_append, List.mem_cons] at this ⊢
    tauto

/-- C21: for every keyword, registry and line, `parse_and_run` returns the
result of the attack, flip visibility, heal or super state when the keyword
is exactly `attack`, `flip_visibility`, `heal` or `super`, and for every
other keyword it returns `INPUT_ERROR` with the registry unchanged. -/
theorem C21_parse_and_run_dispatch (action : List Char) (g : game) (input : List Char) :
    (action = ATTACK →
      __state_machine_parse_and_run action g input = state_machine_states 0 g input) ∧
    (action = FLIP_VISIBILITY →
      __state_machine_parse_and_run action g input = state_machine_states 1 g input) ∧
    (action = HEAL →
      __state_machine_parse_and_run action g input = state_machine_states 2 g input) ∧
    (action = SUPER →
      __state_machine_parse_and_run action g input = state_machine_states 3 g input) ∧
    (action ≠ ATTACK → action ≠ FLIP_VISIBILITY → action ≠ HEAL → action ≠ SUPER →
      __state_machine_parse_and_run action g input = some (g, .INPUT_ERROR)) := by
  refine ⟨?_, ?_, ?_, ?_, ?_⟩
  · rintro rfl
    simp only [__state_machine_parse_and_run, strcmp_self, if_true]
  · rintro rfl
    have h1 : strcmp FLIP_VISIBILITY ATTACK ≠ 0 := by decide
    simp only [__state_machine_parse_and_run, strcmp_self, if_true, if_neg h1]
  · rintro rfl
    have h1 : strcmp HEAL ATTACK ≠ 0 := by decide
    have h2 : strcmp HEAL FLIP_VISIBILITY ≠ 0 := by decide
    simp only [__state_machine_parse_and_run, strcmp_self, if_true, if_neg h1, if_neg h2]
  · rintro rfl
    have h1 : strcmp SUPER ATTACK ≠ 0 := by decide
    have h2 : strcmp SUPER FLIP_VISIBILITY ≠ 0 := by decide
    have h3 : strcmp SUPER HEAL ≠ 0 := by decide
    simp only [__state_machine_parse_and_run, strcmp_self, if_true, if_neg h1, if_neg h2,
      if_neg h3]
  · intro h1 h2 h3 h4
    have e1 : strcmp action ATTACK ≠ 0 := fun e => h1 (strcmp_eq_zero e)
    have e2 : strcmp action FLIP_VISIBILITY ≠ 0 := fun e => h2 (strcmp_eq_zero e)
    have e3 : strcmp action HEAL ≠ 0 := fun e => h3 (strcmp_eq_zero e)
    have e4 : strcmp action SUPER ≠ 0 := fun e => h4 (strcmp_eq_zero e)
    simp only [__state_machine_parse_and_run, if_neg e1, if_neg e2, if_neg e3, if_neg e4]

/-- The dispatch at a registry of three players: `attack` runs the attack
state, and the keyword `Attack` is an input error that leaves the game as it
was. -/
theorem C21_parse_and_run_dispatch_witness :
    __state_machine_parse_and_run ATTACK game_three (action_line ATTACK "Bb".toList "Cc".toList)
        = state_machine_states 0 game_three (action_line ATTACK "Bb".toList "Cc".toList) ∧
      __state_machine_parse_and_run "Attack".toList game_three
          (action_line "Attack".toList "Bb".toList "Cc".toList)
        = some (game_three, .INPUT_ERROR) :=
  ⟨(C21_parse_and_run_dispatch ATTACK game_three _).1 rfl,
   (C21_parse_and_run_dispatch "Attack".toList game_three _).2.2.2.2
      (by decide) (by decide) (by decide) (by decide)⟩

/-- The first character passes `isalpha` and fails `islower` exactly when it
is an uppercase letter. -/
theorem isalpha_not_islower (c : Char) :
    ((!isalpha c) = false ∧ islower c = false) ↔ isupper c = true := by
  simp only [isalpha, islower, isupper, Bool.not_eq_false', Bool.or_eq_true, Bool.and_eq_true,
    decide_eq_true_eq, Bool.and_eq_false_iff, decide_eq_false_iff_not]
  omega

/-- C28, the counterexample: `AA` passes `is_name_correct` although its
second character is not a lowercase letter. -/
theorem C28_uppercase_after_first_accepted :
    is_name_correct "AA".toList = 1 ∧ name_as_stated "AA".toList = false := by
  decide

/-- C28, amended: `is_name_correct` returns 1 exactly for the strings of 2
to 20 characters that start with an uppercase letter and whose remaining
characters are letters of either case; every string of the stated shape
(remaining characters lowercase) is among them, and every other string
gets 0. -/
theorem C28_is_name_correct_iff (s : List Char) :
    (is_name_correct s = 1 ↔
      ∃ c rest, s = c :: rest ∧ isupper c = true ∧ rest.all isalpha = true ∧
        2 ≤ s.length ∧ s.length ≤ 20) ∧
    (name_as_stated s = true → is_name_correct s = 1) ∧
    (is_name_correct s ≠ 1 → is_name_correct s = 0) := by
  have key : is_name_correct s = 1 ↔
      ∃ c rest, s = c :: rest ∧ isupper c = true ∧ rest.all isalpha = true ∧
        2 ≤ s.length ∧ s.length ≤ 20 := by
    cases s with
    | nil => simp [is_name_correct]
    | cons c rest =>
      have hup := isalpha_not_islower c
      simp only [is_name_correct]
      constructor
      · intro h
        split_ifs at h with h1 h2 h3 h4
        all_goals first
          | omega
          | exact ⟨c, rest, rfl, hup.mp ⟨by simpa using h2, by simpa using h3⟩, h4,
              by omega, by omega⟩
      · rintro ⟨c1, rest1, e, hc, hr, hl1, hl2⟩
        cases e
        have hc1 := hup.mpr hc
        rw [if_neg (by omega), if_neg (by simp [hc1.1]), if_neg (by simp [hc1.2]), if_pos hr]
  refine ⟨key, ?_, ?_⟩
  · intro hs
    cases s with
    | nil => simp [name_as_stated] at hs
    | cons c rest =>
      simp only [name_as_stated, Bool.and_eq_true, decide_eq_true_eq] at hs
      refine key.mpr ⟨c, rest, rfl, hs.1.1.1, ?_, hs.1.2, hs.2⟩
      rw [List.all_eq_true] at *
      intro x hx
      have := hs.1.1.2 x hx
      simp only [islower, isalpha, Bool.and_eq_true, Bool.or_eq_true, decide_eq_true_eq] at *
      omega
  · intro hne
    simp only [is_name_correct] at *
    cases s with
    | nil => simp
    | cons c rest =>
      simp only at *
      split_ifs at * <;> simp_all

/-- The amended statement at `Aa`, which is accepted, and at `aa`, which is
rejected. -/
theorem C28_is_name_correct_iff_witness :
    is_name_correct "Aa".toList = 1 ∧ is_name_correct "aa".toList = 0 :=
  ⟨(C28_is_name_correct_iff "Aa".toList).2.1 (by decide),
   (C28_is_name_correct_iff "aa".toList).2.2 (by decide)⟩

/-- C23, the counterexample: with 17 teams, a player constructed for team 16
is returned as a player of team 0, because the team is kept in a field of 4
bits. -/
theorem C23_team_sixteen_stored_as_zero :
    (__player_new [] "Aa".toList 16 5 TRUE 17).2 = some 0 ∧
      (__player_new [] "Aa".toList 16 5 TRUE 17).1.read 0
        = some { name := "Aa".toList, power := 5, team_number := 0, is_visible := 1 } := by
  decide

/-- C23, amended: checked construction returns null if and only if the name
fails `is_name_correct`, or `team_number >= number_of_teams`, or
`power > 1000`, or the visibility string is neither `True` nor `False`;
otherwise it returns a fresh player with exactly the given name and power,
with is_visible 1 for `True` and 0 for `False`, and with the given team
reduced modulo 16, which is the given team whenever there are at most 16
teams. -/
theorem C23_player_new (h : heap) (name : List Char) (team_number power : Nat)
    (visibility : List Char) (number_of_teams : Nat) :
    ((__player_new h name team_number power visibility number_of_teams).2 = none ↔
      (is_name_correct name = 0 ∨ number_of_teams ≤ team_number ∨ MAX_POWER < power ∨
        (visibility ≠ TRUE ∧ visibility ≠ FALSE))) ∧
    ((__player_new h name team_number power visibility number_of_teams).2 = none →
      (__player_new h name team_number power visibility number_of_teams).1 = h) ∧
    (∀ a, (__player_new h name team_number power visibility number_of_teams).2 = some a →
      a = h.length ∧
      (__player_new h name team_number power visibility number_of_teams).1.read a
        = some { name := name, power := power, team_number := team_number % 16,
                 is_visible := if visibility = TRUE then 1 else 0 } ∧
      (number_of_teams ≤ 16 → team_number % 16 = team_number)) := by
  have hft : strcmp FALSE TRUE ≠ 0 := by decide
  have hrd : ∀ pl : player, heap.read (h ++ [some pl]) h.length = some pl := by
    intro pl
    simp [heap.read]
  by_cases h1 : is_name_correct name = 0
  · simp [__player_new, h1]
  by_cases h2 : number_of_teams ≤ team_number
  · simp [__player_new, h1, h2]
  by_cases h3 : MAX_POWER < power
  · simp [__player_new, h1, h2, h3]
  have hp : power % 1024 = power := by
    simp only [MAX_POWER] at h3
    omega
  by_cases h4 : visibility = TRUE
  · subst h4
    simp only [__player_new, if_neg h1, ge_iff_le, if_neg h2, gt_iff_lt, if_neg h3, strcmp_self,
      if_true, __player_new_unchecked, heap.alloc, hp]
    refine ⟨by simp [h1, h2, h3], by simp, ?_⟩
    intro a ha
    cases ha
    exact ⟨rfl, hrd _, fun hk => Nat.mod_eq_of_lt (by omega)⟩
  by_cases h5 : visibility = FALSE
  · subst h5
    simp only [__player_new, if_neg h1, ge_iff_le, if_neg h2, gt_iff_lt, if_neg h3, if_neg hft,
      strcmp_self, if_true, __player_new_unchecked, heap.alloc, hp]
    refine ⟨by simp [h1, h2, h3], by simp, ?_⟩
    intro a ha
    cases ha
    refine ⟨rfl, ?_, fun hk => Nat.mod_eq_of_lt (by omega)⟩
    rw [hrd, if_neg h4]
  · have e4 : strcmp visibility TRUE ≠ 0 := fun e => h4 (strcmp_eq_zero e)
    have e5 : strcmp visibility FALSE ≠ 0 := fun e => h5 (strcmp_eq_zero e)
    simp [__player_new, h1, h2, h3, h4, h5, e4, e5]

/-- The amended statement at four constructions over an empty heap: a good
one, which yields the record asked for, and three refused ones. -/
theorem C23_player_new_witness :
    (__player_new [] "Aa".toList 3 1000 FALSE 10).1.read 0
        = some { name := "Aa".toList, power := 1000, team_number := 3, is_visible := 0 } ∧
      (__player_new [] "Aa".toList 10 5 TRUE 10).2 = none ∧
      (__player_new [] "Aa".toList 3 1001 TRUE 10).2 = none ∧
      (__player_new [] "Aa".toList 3 5 "true".toList 10).2 = none :=
  ⟨((C23_player_new [] "Aa".toList 3 1000 FALSE 10).2.2 0 (by decide)).2.1,
   (C23_player_new [] "Aa".toList 10 5 TRUE 10).1.mpr (Or.inr (Or.inl (by decide))),
   (C23_player_new [] "Aa".toList 3 1001 TRUE 10).1.mpr (Or.inr (Or.inr (Or.inl (by decide)))),
   (C23_player_new [] "Aa".toList 3 5 "true".toList 10).1.mpr
     (Or.inr (Or.inr (Or.inr (by decide))))⟩

/-! ## Removal of an absent name, removal with two children, insertion of a
name found below the root -/

/-- Removing a name that no player of an ordered fragment has frees nothing
and returns the fragment as it was. -/
theorem node_remove_absent {h : heap} : ∀ {t : player_tree_node}, ordered h t →
    ∀ {name : List Char}, (∀ x ∈ t.ptrs, ∀ xl, h.deref x = some xl → xl.name ≠ name) →
      __player_tree_node_remove h t name = some (h, t)
  | .NULL, _, _, _ => by simp [__player_tree_node_remove]
  | .node q l r, ho, name, hn => by
    obtain ⟨ql, hq, _, _, hol, hor⟩ := ho
    obtain ⟨b, rfl, hb⟩ := deref_some hq
    have hroot : ql.name ≠ name :=
      hn (some b) (by simp [player_tree_node.ptrs]) ql hq
    have hne : strcmp name ql.name ≠ 0 := fun h0 => hroot (strcmp_eq_zero h0).symm
    have hl : __player_tree_node_remove h l name = some (h, l) := node_remove_absent hol
      (fun x hx => hn x (by simp [player_tree_node.ptrs, hx]))
    have hr : __player_tree_node_remove h r name = some (h, r) := node_remove_absent hor
      (fun x hx => hn x (by simp [player_tree_node.ptrs, hx]))
    simp only [__player_tree_node_remove, hb, hl, hr]
    by_cases c1 : strcmp name ql.name < 0
    · rw [if_pos c1]
    · rw [if_neg c1, if_pos (by omega)]

/-- C30: for every ordered player tree and every name not present in it,
`node_remove` has a defined result, frees nothing and returns the tree with
all nodes unchanged, so every find gives what it gave before, while `remove`
still decrements the size field: by one when the size is positive, and from
0 around to the largest `size_t`. -/
theorem C30_remove_absent_name (h : heap) (tree : player_tree) (name : List Char)
    (ho : ordered h tree.__root)
    (habs : ∀ x ∈ tree.__root.ptrs, ∀ xl, h.deref x = some xl → xl.name ≠ name) :
    __player_tree_node_remove h tree.__root name = some (h, tree.__root) ∧
    (∃ tree1, __player_tree_remove h tree name = some (h, tree1) ∧
      tree1.__root = tree.__root ∧
      (∀ other, __player_tree_find h tree1 other = __player_tree_find h tree other) ∧
      tree1.__size = (tree.__size + SIZE_MOD - 1) % SIZE_MOD ∧
      (0 < tree.__size → tree.__size < SIZE_MOD → tree1.__size = tree.__size - 1)) := by
  have hrm := node_remove_absent ho habs
  obtain ⟨sz, hsz⟩ : ∃ sz, sz = (tree.__size + SIZE_MOD - 1) % SIZE_MOD := ⟨_, rfl⟩
  refine ⟨hrm, ⟨tree.__root, sz⟩, ?_, rfl, ?_, hsz, ?_⟩
  · simp only [__player_tree_remove, hrm, hsz]
  · intro other
    simp only [__player_tree_find]
  · intro h0 h1
    show sz = tree.__size - 1
    rw [hsz]
    have e : tree.__size + SIZE_MOD - 1 = (tree.__size - 1) + SIZE_MOD := by omega
    rw [e, Nat.add_mod_right, Nat.mod_eq_of_lt (by omega)]

/-- The claim at the registry of `Bb`, `Aa`, `Cc` and the absent name `Dd`:
nothing changes but the size, which drops from 3 to 2. -/
theorem C30_remove_absent_name_witness :
    __player_tree_node_remove heap_three tree_three.__root "Dd".toList
        = some (heap_three, tree_three.__root) ∧
      __player_tree_remove heap_three tree_three "Dd".toList
        = some (heap_three, ⟨tree_three.__root, 2⟩) := by
  have hord : ordered heap_three tree_three.__root := tree_three_ordered _ rfl rfl rfl
  have habs : ∀ x ∈ tree_three.__root.ptrs, ∀ xl, heap_three.deref x = some xl →
      xl.name ≠ "Dd".toList := by
    intro x hx xl hxl
    simp only [tree_three, player_tree_node.ptrs, List.nil_append, List.cons_append,
      List.mem_cons, List.mem_singleton, List.not_mem_nil, or_false] at hx
    rcases hx with rfl | rfl | rfl
    · have e : heap_three.deref (some 1) = some ⟨"Aa".toList, 300, 0, 1⟩ := rfl
      rw [e] at hxl
      cases hxl
      decide
    · have e : heap_three.deref (some 0) = some ⟨"Bb".toList, 500, 0, 1⟩ := rfl
      rw [e] at hxl
      cases hxl
      decide
    · have e : heap_three.deref (some 2) = some ⟨"Cc".toList, 400, 1, 1⟩ := rfl
      rw [e] at hxl
      cases hxl
      decide
  have key := C30_remove_absent_name heap_three tree_three "Dd".toList hord habs
  obtain ⟨k1, tree1, k2, k3, _, k4, _⟩ := key
  refine ⟨k1, ?_⟩
  rw [k2]
  cases tree1
  simp only at k3 k4
  subst k3
  subst k4
  rfl

/-- Removing the name of the leftmost player of an ordered fragment frees
that player and returns the fragment without its leftmost node. -/
theorem node_remove_min {h : heap} : ∀ {t : player_tree_node}, ordered h t →
    ∀ {m : Nat} {ml : player}, (__player_tree_node_min t).player_field = some (some m) →
      h.read m = some ml →
      __player_tree_node_remove h t ml.name = some (h.set m none, without_min t)
  | .NULL, _, _, _, hq, _ => by
    simp [__player_tree_node_min, player_tree_node.player_field] at hq
  | .node p .NULL r, ho, m, ml, hq, hm => by
    simp only [__player_tree_node_min, player_tree_node.player_field, Option.some.injEq] at hq
    subst hq
    simp only [__player_tree_node_remove, hm, strcmp_self, lt_self_iff_false, if_false,
      gt_iff_lt, player_tree_node.is_null, if_true, __player_tree_node_free_this, heap.free,
      without_min]
  | .node p (.node p1 l1 r1) r, ho, m, ml, hq, hm => by
    obtain ⟨ql, hp, hl, _, hol, _⟩ := ho
    obtain ⟨b, rfl, hb⟩ := deref_some hp
    rw [__player_tree_node_min] at hq
    case x_1 => exact fun e => player_tree_node.noConfusion e
    obtain ⟨xl, hx, hlt⟩ := hl _ (min_player_mem hq)
    have e : xl = ml := by simpa [heap.deref, hm] using hx.symm
    subst e
    have ih := node_remove_min hol hq hm
    simp only [__player_tree_node_remove, hb, if_pos hlt] at ih ⊢
    rw [ih]
    simp only [without_min]

/-- The removal at a node with two children, for every ordered fragment
whose root holds the name to remove: the result has the player pointer of
the minimum (leftmost) node of the old right fragment in its root, the old
left fragment, and the old right fragment without that minimum node; the
record freed on the way is the one that the new root points to, and the
record of the removed name stays allocated. -/
theorem remove_with_two_children (h : heap) (a : Nat) (pl : player)
    (l r : player_tree_node) (ho : ordered h (.node (some a) l r))
    (ha : h.read a = some pl) (hl : l.is_null = false) (hr : r.is_null = false) :
    ∃ m ml, (__player_tree_node_min r).player_field = some (some m) ∧
      h.read m = some ml ∧
      __player_tree_node_remove h (.node (some a) l r) pl.name
        = some (h.set m none, .node (some m) l (without_min r)) ∧
      heap.read (h.set m none) m = none ∧
      heap.read (h.set m none) a = some pl := by
  obtain ⟨ql, hq, _, hrr, _, hor⟩ := ho
  have e : ql = pl := by simpa [heap.deref, ha] using hq.symm
  subst e
  obtain ⟨q, hmin⟩ : ∃ q, (__player_tree_node_min r).player_field = some q := by
    cases r with
    | NULL => simp [player_tree_node.is_null] at hr
    | node p l1 r1 =>
      have key : ∀ t : player_tree_node, t.is_null = false →
          ∃ q, (__player_tree_node_min t).player_field = some q := by
        intro t
        induction t with
        | NULL => intro ht; simp [player_tree_node.is_null] at ht
        | node p2 l2 r2 ihl _ =>
          intro _
          cases l2 with
          | NULL => exact ⟨p2, by simp [__player_tree_node_min, player_tree_node.player_field]⟩
          | node p3 l3 r3 =>
            obtain ⟨q, hq3⟩ := ihl rfl
            refine ⟨q, ?_⟩
            rw [__player_tree_node_min]
            · exact hq3
            · exact fun e => player_tree_node.noConfusion e
      exact key _ rfl
  obtain ⟨ml, hml, hgt⟩ := hrr _ (min_player_mem hmin)
  obtain ⟨m, rfl, hm⟩ := deref_some hml
  have hrec := node_remove_min hor hmin hm
  have hne : m ≠ a := by
    rintro rfl
    have : ml = ql := by simpa [ha] using hm.symm
    subst this
    simp [strcmp_self] at hgt
  refine ⟨m, ml, hmin, hm, ?_, ?_, ?_⟩
  · simp only [__player_tree_node_remove, ha, strcmp_self, lt_self_iff_false, if_false,
      gt_iff_lt, hl, hr, Bool.false_eq_true, hmin, heap.deref, hm, hrec]
  · exact read_set_self (read_lt hm) _
  · rw [read_set_ne hne]
    exact ha

/-- C26, evaluated where it fails: in the tree of `Bb`, `Aa`, `Cc` the root
`Bb` has both children, and removing `Bb` returns a tree of the claimed
shape whose root holds the pointer that the minimum node of the old right
fragment held, the pointer to `Cc`; but the record of `Cc` has been freed by
the removal of that minimum node, so the root holds no player: its pointer
dangles, and a search in the returned tree, for `Cc` or any other name,
reads freed memory.  This holds for every ordered fragment whose root holds
the name to remove and has two children. -/
theorem C26_root_holds_freed_player :
    (ordered heap_three tree_three.__root ∧
      heap_three.read 2 = some ⟨"Cc".toList, 400, 1, 1⟩ ∧
      __player_tree_node_remove heap_three tree_three.__root "Bb".toList
        = some (heap_three.set 2 none,
            .node (some 2) (.node (some 1) .NULL .NULL) .NULL) ∧
      heap.read (heap_three.set 2 none) 2 = none ∧
      __player_tree_node_find (heap_three.set 2 none)
        (.node (some 2) (.node (some 1) .NULL .NULL) .NULL) "Cc".toList = none) ∧
    (∀ (h : heap) (a : Nat) (pl : player) (l r : player_tree_node),
      ordered h (.node (some a) l r) → h.read a = some pl →
      l.is_null = false → r.is_null = false →
      ∃ m ml, (__player_tree_node_min r).player_field = some (some m) ∧
        h.read m = some ml ∧
        __player_tree_node_remove h (.node (some a) l r) pl.name
          = some (h.set m none, .node (some m) l (without_min r)) ∧
        heap.read (h.set m none) m = none ∧
        ∀ name, __player_tree_node_find (h.set m none)
          (.node (some m) l (without_min r)) name = none) := by
  refine ⟨⟨tree_three_ordered _ rfl rfl rfl, by decide, by decide, by decide, by decide⟩, ?_⟩
  intro h a pl l r ho ha hl hr
  obtain ⟨m, ml, h1, h2, h3, h4, _⟩ := remove_with_two_children h a pl l r ho ha hl hr
  refine ⟨m, ml, h1, h2, h3, h4, ?_⟩
  intro name
  simp only [__player_tree_node_find, h4]

/-- Inserting a live player whose name some player of an ordered fragment
has: the node that a search for the name reaches is cut off with everything
below it, and the rest of the fragment stays, ordered. -/
theorem node_insert_present {h : heap} {p : Nat} {pl : player} (hp : h.read p = some pl) :
    ∀ {t : player_tree_node}, ordered h t →
      (∃ x ∈ t.ptrs, ∃ xl, h.deref x = some xl ∧ xl.name = pl.name) →
      ∃ t1, __player_tree_node_insert h t (some p) = some t1 ∧ ordered h t1 ∧
        (∃ n nl, (node_of_name h t pl.name).player_field = some (some n) ∧
          h.read n = some nl ∧ nl.name = pl.name) ∧
        (∀ x ∈ (node_of_name h t pl.name).ptrs, x ∈ t.ptrs) ∧
        (∀ x, x ∈ t1.ptrs ↔ (x ∈ t.ptrs ∧ x ∉ (node_of_name h t pl.name).ptrs)) ∧
        (∀ x ∈ (node_of_name h t pl.name).ptrs, ∀ y ∈ t1.ptrs, ∀ xl yl,
          h.deref x = some xl → h.deref y = some yl → xl.name ≠ yl.name) ∧
        (t1.is_null = false ∨
          ∃ q ql, t.player_field = some q ∧ h.deref q = some ql ∧ ql.name = pl.name)
  | .NULL, _, hex => by
    obtain ⟨x, hx, _⟩ := hex
    simp [player_tree_node.ptrs] at hx
  | .node q l r, ho, hex => by
    obtain ⟨ql, hq, hl, hrr, hol, hor⟩ := ho
    obtain ⟨b, rfl, hb⟩ := deref_some hq
    have hdp : h.deref (some p) = some pl := hp
    rcases lt_trichotomy (strcmp pl.name ql.name) 0 with c | c | c
    · have hexl : ∃ x ∈ l.ptrs, ∃ xl, h.deref x = some xl ∧ xl.name = pl.name := by
        obtain ⟨x, hx, xl, hxl, hname⟩ := hex
        simp only [player_tree_node.ptrs, List.mem_append, List.mem_cons] at hx
        rcases hx with hx | rfl | hx
        · exact ⟨x, hx, xl, hxl, hname⟩
        · rw [hq] at hxl
          cases hxl
          rw [← hname, strcmp_self] at c
          omega
        · obtain ⟨yl, hy, hgt⟩ := hrr x hx
          rw [hxl] at hy
          cases hy
          rw [hname] at hgt
          omega
      obtain ⟨l1, hins, hol1, hN, hsub, hptr, hD, _⟩ := node_insert_present hp hol hexl
      have hnode : node_of_name h (.node (some b) l r) pl.name = node_of_name h l pl.name := by
        simp only [node_of_name, hq, if_neg (ne_of_lt c), if_pos c]
      rw [hnode]
      refine ⟨.node (some b) l1 r, ?_, ?_, hN, ?_, ?_, ?_, Or.inl rfl⟩
      · simp only [__player_tree_node_insert, hdp, hq, if_pos c, hins]
      · exact ⟨ql, hq, fun x hx => hl x ((hptr x).mp hx).1, hrr, hol1, hor⟩
      · intro x hx
        simp [player_tree_node.ptrs, hsub x hx]
      · intro x
        simp only [player_tree_node.ptrs, List.mem_append, List.mem_cons, hptr]
        constructor
        · rintro (⟨h1, h2⟩ | rfl | h1)
          · exact ⟨Or.inl h1, h2⟩
          · refine ⟨Or.inr (Or.inl rfl), fun hin => ?_⟩
            obtain ⟨xl, hx, hlt⟩ := hl _ (hsub _ hin)
            rw [hq] at hx
            cases hx
            simp [strcmp_self] at hlt
          · refine ⟨Or.inr (Or.inr h1), fun hin => ?_⟩
            obtain ⟨xl, hx, hlt⟩ := hl _ (hsub _ hin)
            obtain ⟨yl, hy, hgt⟩ := hrr _ h1
            rw [hx] at hy
            cases hy
            omega
        · rintro ⟨h1 | rfl | h1, h2⟩
          · exact Or.inl ⟨h1, h2⟩
          · exact Or.inr (Or.inl rfl)
          · exact Or.inr (Or.inr h1)
      · intro x hx y hy xl yl hxl hyl hname
        obtain ⟨xl1, hx1, hlt⟩ := hl _ (hsub _ hx)
        rw [hxl] at hx1
        cases hx1
        simp only [player_tree_node.ptrs, List.mem_append, List.mem_cons] at hy
        rcases hy with hy | rfl | hy
        · exact hD x hx y hy xl yl hxl hyl hname
        · rw [hq] at hyl
          cases hyl
          rw [hname, strcmp_self] at hlt
          omega
        · obtain ⟨yl1, hy1, hgt⟩ := hrr _ hy
          rw [hyl] at hy1
          cases hy1
          rw [hname] at hlt
          omega
    · have hnode : node_of_name h (.node (some b) l r) pl.name = .node (some b) l r := by
        simp only [node_of_name, hq, if_pos c]
      rw [hnode]
      refine ⟨.NULL, ?_, trivial, ⟨b, ql, rfl, hb, (strcmp_eq_zero c).symm⟩, fun x hx => hx, ?_, ?_,
        Or.inr ⟨some b, ql, rfl, hq, (strcmp_eq_zero c).symm⟩⟩
      · simp only [__player_tree_node_insert, hdp, hq, c, lt_self_iff_false, if_false, gt_iff_lt]
      · intro x
        simp only [player_tree_node.ptrs, List.not_mem_nil, false_iff, not_and, not_not]
        exact fun hx => hx
      · intro x _ y hy
        simp [player_tree_node.ptrs] at hy
    · have hexr : ∃ x ∈ r.ptrs, ∃ xl, h.deref x = some xl ∧ xl.name = pl.name := by
        obtain ⟨x, hx, xl, hxl, hname⟩ := hex
        simp only [player_tree_node.ptrs, List.mem_append, List.mem_cons] at hx
        rcases hx with hx | rfl | hx
        · obtain ⟨yl, hy, hlt⟩ := hl x hx
          rw [hxl] at hy
          cases hy
          rw [hname] at hlt
          omega
        · rw [hq] at hxl
          cases hxl
          rw [← hname, strcmp_self] at c
          omega
        · exact ⟨x, hx, xl, hxl, hname⟩
      obtain ⟨r1, hins, hor1, hN, hsub, hptr, hD, _⟩ := node_insert_present hp hor hexr
      have hnode : node_of_name h (.node (some b) l r) pl.name = node_of_name h r pl.name := by
        simp only [node_of_name, hq, if_neg (ne_of_gt c), if_neg (not_lt_of_gt c)]
      rw [hnode]
      refine ⟨.node (some b) l r1, ?_, ?_, hN, ?_, ?_, ?_, Or.inl rfl⟩
      · simp only [__player_tree_node_insert, hdp, hq, if_neg (not_lt_of_gt c), gt_iff_lt,
          if_pos c, hins]
      · exact ⟨ql, hq, hl, fun x hx => hrr x ((hptr x).mp hx).1, hol, hor1⟩
      · intro x hx
        simp [player_tree_node.ptrs, hsub x hx]
      · intro x
        simp only [player_tree_node.ptrs, List.mem_append, List.mem_cons, hptr]
        constructor
        · rintro (h1 | rfl | ⟨h1, h2⟩)
          · refine ⟨Or.inl h1, fun hin => ?_⟩
            obtain ⟨xl, hx, hgt⟩ := hrr _ (hsub _ hin)
            obtain ⟨yl, hy, hlt⟩ := hl _ h1
            rw [hx] at hy
            cases hy
            omega
          · refine ⟨Or.inr (Or.inl rfl), fun hin => ?_⟩
            obtain ⟨xl, hx, hgt⟩ := hrr _ (hsub _ hin)
            rw [hq] at hx
            cases hx
            simp [strcmp_self] at hgt
          · exact ⟨Or.inr (Or.inr h1), h2⟩
        · rintro ⟨h1 | rfl | h1, h2⟩
          · exact Or.inl h1
          · exact Or.inr (Or.inl rfl)
          · exact Or.inr (Or.inr ⟨h1, h2⟩)
      · intro x hx y hy xl yl hxl hyl hname
        obtain ⟨xl1, hx1, hgt⟩ := hrr _ (hsub _ hx)
        rw [hxl] at hx1
        cases hx1
        simp only [player_tree_node.ptrs, List.mem_append, List.mem_cons] at hy
        rcases hy with hy | rfl | hy
        · obtain ⟨yl1, hy1, hlt⟩ := hl _ hy
          rw [hyl] at hy1
          cases hy1
          rw [hname] at hgt
          omega
        · rw [hq] at hyl
          cases hyl
          rw [hname, strcmp_self] at hgt
          omega
        · exact hD x hx y hy xl yl hxl hyl hname

/-- C29: for every ordered player tree whose root has a name different from
the name of the live player `p` but which contains a node N with that name,
`insert` returns 1 and the resulting tree is the original tree with the
whole fragment rooted at N cut off: it is ordered, it holds exactly the
player pointers of the original tree that are not in N's fragment, every
player it holds is still found, `find` of the name of `p` and of every name
in N's fragment is null, `p` itself is not stored, and the size field is one
more than before (modulo the width of `size_t`). -/
theorem C29_insert_of_name_below_root (h : heap) (tree : player_tree) (p : Nat) (pl : player)
    (ho : ordered h tree.__root) (hp : h.read p = some pl)
    (hroot : ∀ q ql, tree.__root.player_field = some q → h.deref q = some ql →
      ql.name ≠ pl.name)
    (hN : ∃ x ∈ tree.__root.ptrs, ∃ xl, h.deref x = some xl ∧ xl.name = pl.name) :
    ∃ tree1, __player_tree_insert h tree (some p) = some (tree1, 1) ∧
      ordered h tree1.__root ∧
      (∃ n nl, (node_of_name h tree.__root pl.name).player_field = some (some n) ∧
        h.read n = some nl ∧ nl.name = pl.name) ∧
      (∀ x, x ∈ tree1.__root.ptrs ↔
        (x ∈ tree.__root.ptrs ∧ x ∉ (node_of_name h tree.__root pl.name).ptrs)) ∧
      (∀ b bl, some b ∈ tree1.__root.ptrs → h.read b = some bl →
        __player_tree_find h tree1 bl.name = some (some b)) ∧
      __player_tree_find h tree1 pl.name = some none ∧
      (∀ x ∈ (node_of_name h tree.__root pl.name).ptrs, ∀ xl, h.deref x = some xl →
        __player_tree_find h tree1 xl.name = some none) ∧
      some p ∉ tree1.__root.ptrs ∧
      tree1.__size = (tree.__size + 1) % SIZE_MOD ∧
      (tree.__size + 1 < SIZE_MOD → tree1.__size = tree.__size + 1) := by
  obtain ⟨t1, hins, ho1, hfound, _, hptr, hD, hnull⟩ := node_insert_present hp ho hN
  have hnn : t1.is_null = false := by
    rcases hnull with c | ⟨q, ql, c1, c2, c3⟩
    · exact c
    · exact absurd c3 (hroot q ql c1 c2)
  obtain ⟨sz, hsz⟩ : ∃ sz, sz = (tree.__size + 1) % SIZE_MOD := ⟨_, rfl⟩
  obtain ⟨n, nl, hn1, hn2, hn3⟩ := hfound
  have hnmem : some n ∈ (node_of_name h tree.__root pl.name).ptrs := by
    cases hnode : node_of_name h tree.__root pl.name with
    | NULL => simp [hnode, player_tree_node.player_field] at hn1
    | node q1 l1 r1 =>
      simp only [hnode, player_tree_node.player_field, Option.some.injEq] at hn1
      simp [player_tree_node.ptrs, hn1]
  refine ⟨⟨t1, sz⟩, ?_, ho1, ⟨n, nl, hn1, hn2, hn3⟩, hptr, ?_, ?_, ?_, ?_, hsz, ?_⟩
  · simp only [__player_tree_insert, hins, hsz]
    cases t1 with
    | NULL => simp [player_tree_node.is_null] at hnn
    | node q1 l1 r1 => rfl
  · intro b bl hb hbl
    exact find_of_mem ho1 hb hbl
  · exact find_of_not_mem ho1 (fun y hy yl hyl e => hD _ hnmem y hy nl yl hn2 hyl (by rw [hn3, e]))
  · intro x hx xl hxl
    exact find_of_not_mem ho1 (fun y hy yl hyl e => hD x hx y hy xl yl hxl hyl e.symm)
  · intro hmem
    exact hD _ hnmem _ hmem nl pl hn2 hp hn3
  · intro hlt
    show sz = tree.__size + 1
    rw [hsz, Nat.mod_eq_of_lt hlt]

/-- The claim at the registry of `Bb`, `Aa`, `Cc` and a second player named
`Aa`: the insert returns 1, the size becomes 4, and `Aa` is no longer
found. -/
theorem C29_insert_of_name_below_root_witness :
    ∃ tree1, __player_tree_insert heap_dup_leaf tree_three (some 3) = some (tree1, 1) ∧
      __player_tree_find heap_dup_leaf tree1 "Aa".toList = some none ∧
      some 3 ∉ tree1.__root.ptrs ∧ tree1.__size = 4 := by
  have hroot : ∀ q ql, tree_three.__root.player_field = some q →
      heap_dup_leaf.deref q = some ql → ql.name ≠ "Aa".toList := by
    intro q ql hq hql
    simp only [tree_three, player_tree_node.player_field, Option.some.injEq] at hq
    subst hq
    have e : heap_dup_leaf.deref (some 0) = some ⟨"Bb".toList, 500, 0, 1⟩ := rfl
    rw [e] at hql
    cases hql
    decide
  obtain ⟨tree1, k1, _, _, _, _, k2, _, k3, _, k4⟩ :=
    C29_insert_of_name_below_root heap_dup_leaf tree_three 3 ⟨"Aa".toList, 7, 1, 1⟩
      (tree_three_ordered _ rfl rfl rfl) rfl hroot
      ⟨some 1, by decide, ⟨"Aa".toList, 300, 0, 1⟩, rfl, rfl⟩
  exact ⟨tree1, k1, k2, k3, k4 (by decide)⟩

/-! ## The action loop of `main` -/

/-- One pass of the action loop over a line whose first word is a keyword
of fewer than 100 characters and whose action has a defined result. -/
theorem main_actions_step {n : Nat} {g g1 : game} {input action : List Char}
    {status : action_status} (rest : List (List Char)) (out : List Char)
    (hword : sscanf_words 1 input = [action]) (hlen : action.length < 100)
    (hrun : __state_machine_parse_and_run action g input = some (g1, status)) :
    main_actions (n + 1) g (input :: rest) out =
      if status = .INPUT_ERROR then some (g1, none)
      else main_actions n g1 rest (out ++ status_message status) := by
  simp only [main_actions, hword, if_neg (not_le_of_lt hlen), hrun]

/-- When the loop run over the lines `pre` alone gets through them, the loop
run over `pre` followed by more lines gets through `pre` in the same way and
goes on with the lines that follow. -/
theorem main_actions_append : ∀ (pre : List (List Char)) (n : Nat) (g : game) (out : List Char)
    (g1 : game) (out1 : List Char), pre.length < n →
    main_actions n g pre out = some (g1, some out1) →
    ∀ tail, main_actions n g (pre ++ tail) out = main_actions (n - pre.length) g1 tail out1
  | [], n, g, out, g1, out1, hn, hrun, tail => by
    cases n with
    | zero => simp at hn
    | succ m =>
      simp only [main_actions, Option.some.injEq, Prod.mk.injEq] at hrun
      obtain ⟨rfl, rfl⟩ := hrun
      rfl
  | x :: xs, n, g, out, g1, out1, hn, hrun, tail => by
    cases n with
    | zero => simp at hn
    | succ m =>
      have hm : xs.length < m := by
        simp only [List.length_cons] at hn
        omega
      have e : m + 1 - (x :: xs).length = m - xs.length := by
        simp only [List.length_cons]
        omega
      rw [e]
      simp only [main_actions] at hrun
      split at hrun
      · rename_i action hw
        split at hrun
        · cases hrun
        · rename_i hlen
          split at hrun
          · cases hrun
          · rename_i g2 status hp
            split at hrun
            · cases hrun
            · rename_i hst
              rw [List.cons_append,
                main_actions_step (xs ++ tail) out hw (lt_of_not_le hlen) hp, if_neg hst]
              exact main_actions_append xs m _ _ g1 out1 hm hrun tail
      · cases hrun

/-- C27, evaluated where it fails: over the players `Bb`, `Aa`, `Cc` of one
team the line `super Cc Bb` returns `OK` and leaves the root of the tree
pointing to the freed record of `S_0`; the next line, `dance`, returns
`INPUT_ERROR` and `Invalid inputs` is written, but the release of the tree
at `FREE_AND_EXIT` then frees the freed record again, before the output file
is closed: the output of the run is undefined, not the line
`Invalid inputs`.  Where the release of the tree is defined the claim holds:
after any lines processed without an input error, an action that returns
`INPUT_ERROR` gives exactly the output `Invalid inputs`, whatever was
written before and whatever lines follow, and an action that returns any
other status appends the diagnostic of that status (nothing for `OK`) and
the loop goes on with the next line. -/
theorem C27_output_undefined_after_super :
    (__state_machine_parse_and_run SUPER game_one_team
        (action_line SUPER "Cc".toList "Bb".toList) = some (game_one_team_after_super, .OK) ∧
      __state_machine_parse_and_run "dance".toList game_one_team_after_super "dance".toList
        = some (game_one_team_after_super, .INPUT_ERROR) ∧
      main_actions 1000 game_one_team
        [action_line SUPER "Cc".toList "Bb".toList, "dance".toList] []
          = some (game_one_team_after_super, none) ∧
      game_one_team_after_super.players.__root.player_field = some (some 3) ∧
      game_one_team_after_super.mem.read 3 = none ∧
      __player_tree_free game_one_team_after_super.mem game_one_team_after_super.players
        = none ∧
      main_output qsort_by_insertion ["Xa".toList] 1 1000 game_one_team
        [action_line SUPER "Cc".toList "Bb".toList, "dance".toList] [] = none) ∧
    (∀ (qsort : List team → List team) (magician_names : List (List Char))
      (number_of_teams n : Nat) (g g1 g2 : game) (pre : List (List Char))
      (input : List Char) (rest : List (List Char)) (out out1 action : List Char)
      (status : action_status),
      main_actions n g pre out = some (g1, some out1) → pre.length < n →
      sscanf_words 1 input = [action] → action.length < 100 →
      __state_machine_parse_and_run action g1 input = some (g2, status) →
      (status = .INPUT_ERROR →
        main_actions n g (pre ++ input :: rest) out = some (g2, none) ∧
        ∀ h3, __player_tree_free g2.mem g2.players = some h3 →
          main_output qsort magician_names number_of_teams n g (pre ++ input :: rest) out
            = some INVALID_INPUT_PANIC) ∧
      (status ≠ .INPUT_ERROR →
        main_actions n g (pre ++ input :: rest) out
          = main_actions (n - pre.length - 1) g2 rest (out1 ++ status_message status))) ∧
    (status_message .PLAYER_IS_INVISIBLE = "This player can't play\n".toList ∧
      status_message .PLAYER_IS_FROZEN = "This player is frozen\n".toList ∧
      status_message .WRONG_TEAM = "Both players should be from the same team\n".toList ∧
      status_message .HEAL_SELF = "The player cannot heal itself\n".toList ∧
      status_message .SUPER_SELF
        = "The player cannot do super action with itself\n".toList ∧
      status_message .OK = []) ∧
    (main_output qsort_by_insertion ["Xa".toList, "Yb".toList] 2 1000 game_three
        [action_line HEAL "Bb".toList "Cc".toList, action_line ATTACK "Bb".toList "Cc".toList] []
        = some ("Both players should be from the same team\n".toList ++
            chosen_wizard "Xa".toList) ∧
      main_output qsort_by_insertion ["Xa".toList, "Yb".toList] 2 1000 game_three
        [action_line HEAL "Bb".toList "Cc".toList, "dance".toList,
          action_line ATTACK "Bb".toList "Cc".toList] []
        = some "Invalid inputs\n".toList) := by
  refine ⟨⟨by decide, by decide, by decide, by decide, by decide, by decide, by decide⟩, ?_,
    ⟨rfl, rfl, rfl, rfl, rfl, rfl⟩, ⟨by decide, by decide⟩⟩
  intro qsort magician_names number_of_teams n g g1 g2 pre input rest out out1 action status
    hpre hn hword hlen hrun
  have happ := main_actions_append pre n g out g1 out1 hn hpre (input :: rest)
  obtain ⟨m, hm⟩ : ∃ m, n - pre.length = m + 1 := ⟨n - pre.length - 1, by omega⟩
  have hstep := main_actions_step (n := m) rest out1 hword hlen hrun
  rw [hm] at happ
  have e : n - pre.length - 1 = m := by omega
  constructor
  · intro hs
    have hact : main_actions n g (pre ++ input :: rest) out = some (g2, none) := by
      rw [happ, hstep, if_pos hs]
    refine ⟨hact, ?_⟩
    intro h3 hfree
    simp only [main_output, hact, hfree]
  · intro hs
    rw [happ, hstep, if_neg hs, e]

/-! ## The verdict of `main` -/

/-- A merging loop that comes to its end has written all its cells inside
the block: the bytes of the cells written before and of the cells still to
fill fit the capacity. -/
theorem merge_loop_capacity {α : Type} (cmp : α → α → Int) (size_of_elem : Nat) (arr : List α)
    (mid right_border capacity : Nat) : ∀ (k i q : Nat) (holder res : List α),
    merge_loop cmp size_of_elem arr mid right_border capacity (k + 1) i q holder = some res →
    (holder.length + k + 1) * size_of_elem ≤ capacity := by
  intro k
  induction k with
  | zero =>
    intro i q holder res hrun
    simp only [merge_loop] at hrun
    repeat' split at hrun
    all_goals first
      | (simpa using (by assumption : (holder.length + 1) * size_of_elem ≤ capacity))
      | cases hrun
  | succ k ih =>
    intro i q holder res hrun
    rw [merge_loop] at hrun
    repeat' split at hrun
    all_goals first
      | (have key := ih _ _ _ _ hrun
         simp only [List.length_append, List.length_singleton] at key
         have e : holder.length + (k + 1) + 1 = holder.length + 1 + k + 1 := by omega
         rw [e]
         exact key)
      | cases hrun

theorem size_mod_eq : SIZE_MOD = 18446744073709551616 := by
  norm_num [SIZE_MOD]

/-- For borders in order the sum that gives `holder_len` does not wrap. -/
theorem holder_len_eq {l r : Nat} (hle : l ≤ r) (hr : r - l + 1 < SIZE_MOD) :
    holder_len l r = r - l + 1 := by
  have e : r + SIZE_MOD - l + 1 = (r - l + 1) + SIZE_MOD := by omega
  rw [holder_len, e, Nat.add_mod_right, Nat.mod_eq_of_lt hr]

/-- When the sum of the borders does not wrap, the midpoint is half of it. -/
theorem midpoint_eq {l r : Nat} (h : l + r < SIZE_MOD) : midpoint l r = (l + r) / 2 := by
  rw [midpoint, Nat.mod_eq_of_lt h]

/-- With elements of two bytes or more, a call of `__merge_sort` on a range
that starts at index 0 and has two cells or more never gives a defined
array: the holder is too small for the cells written to it. -/
theorem merge_sort_never_defined {α : Type} (cmp : α → α → Int) (size_of_elem : Nat)
    (hs : 2 ≤ size_of_elem) (depth : Nat) (arr : List α) (right_border : Nat)
    (hr : 1 ≤ right_border) (hr2 : right_border + 1 < SIZE_MOD) (res : List α) :
    __merge_sort cmp size_of_elem depth arr 0 right_border ≠ some (some res) := by
  have hlen : holder_len 0 right_border = right_border + 1 :=
    holder_len_eq (Nat.zero_le _) (by omega)
  have hnone : ∀ (arr2 : List α) (mid : Nat),
      merge_loop cmp size_of_elem arr2 mid right_border
        (sort_holder_bytes size_of_elem right_border) (holder_len 0 right_border) 0
        (mid + 1) [] = none := by
    intro arr2 mid
    cases hloop : merge_loop cmp size_of_elem arr2 mid right_border
        (sort_holder_bytes size_of_elem right_border) (holder_len 0 right_border) 0
        (mid + 1) [] with
    | none => rfl
    | some holder =>
      exfalso
      rw [hlen] at hloop
      have key := merge_loop_capacity _ _ _ _ _ _ _ _ _ _ _ hloop
      simp only [List.length_nil, Nat.zero_add, sort_holder_bytes] at key
      have hmod := Nat.mod_le (right_border * size_of_elem + 1) SIZE_MOD
      have hmul : (right_border + 1) * size_of_elem
          = right_border * size_of_elem + size_of_elem := by ring
      omega
  intro hrun
  cases depth with
  | zero => simp [__merge_sort] at hrun
  | succ depth =>
    rw [__merge_sort] at hrun
    simp only [if_neg (show ¬ (0 = right_border) by omega), hnone] at hrun
    repeat' split at hrun
    all_goals cases hrun

/-! ## The merging logic of the sort

With cells of one byte the holder of `right_border * size_of_elem + 1` bytes
is large enough, and the sort then does what it is meant to do. -/

theorem strcmp_le_trans {a b c : List Char} (hab : strcmp a b ≤ 0) (hbc : strcmp b c ≤ 0) :
    strcmp a c ≤ 0 := by
  by_cases e1 : strcmp a b = 0
  · rw [strcmp_eq_zero e1]
    exact hbc
  by_cases e2 : strcmp b c = 0
  · rw [← strcmp_eq_zero e2]
    exact hab
  have h1 : strcmp a b < 0 := by omega
  have h2 : strcmp b c < 0 := by omega
  exact le_of_lt (strcmp_trans h1 h2)

theorem strcmp_le_of_not_lt {a b : List Char} (h : ¬ strcmp a b < 0) : strcmp b a ≤ 0 := by
  by_cases e : strcmp a b = 0
  · rw [strcmp_eq_zero e, strcmp_self]
  · exact le_of_lt (strcmp_swap_pos (by omega))

/-- Merging two ascending lists of names, the left name taken when it is
strictly below the right one, gives an ascending list. -/
theorem merge_ascending : ∀ (A B : List (List Char)),
    A.Pairwise (fun a b => cmp a b ≤ 0) → B.Pairwise (fun a b => cmp a b ≤ 0) →
    (A.merge B (fun a b => decide (cmp a b < 0))).Pairwise (fun a b => cmp a b ≤ 0)
  | [], B, _, hB => by
    rw [List.nil_merge]
    exact hB
  | a :: A, [], hA, _ => by
    rw [List.merge_right]
    exact hA
  | a :: A, b :: B, hA, hB => by
    rw [List.cons_merge_cons]
    have hA1 := List.pairwise_cons.mp hA
    have hB1 := List.pairwise_cons.mp hB
    by_cases c : cmp a b < 0
    · rw [if_pos (by simpa using c)]
      refine List.pairwise_cons.mpr ⟨?_, merge_ascending A (b :: B) hA1.2 hB⟩
      intro x hx
      rw [List.mem_merge] at hx
      rcases hx with hx | hx
      · exact hA1.1 x hx
      · rw [List.mem_cons] at hx
        rcases hx with rfl | hx
        · exact le_of_lt c
        · exact strcmp_le_trans (le_of_lt c) (hB1.1 x hx)
    · rw [if_neg (by simpa using c)]
      refine List.pairwise_cons.mpr ⟨?_, merge_ascending (a :: A) B hA hB1.2⟩
      have hba : cmp b a ≤ 0 := strcmp_le_of_not_lt c
      intro x hx
      rw [List.mem_merge] at hx
      rcases hx with hx | hx
      · rw [List.mem_cons] at hx
        rcases hx with rfl | hx
        · exact hba
        · exact strcmp_le_trans hba (hA1.1 x hx)
      · exact hB1.1 x hx

/-- Reading the middle part of an array made of three parts. -/
theorem getElem?_middle {α : Type} (P X Q : List α) (j : Nat) (hj : j < X.length) :
    (P ++ X ++ Q)[P.length + j]? = X[j]? := by
  rw [List.append_assoc, List.getElem?_append_right (by omega)]
  rw [show P.length + j - P.length = j by omega, List.getElem?_append_left hj]

/-- Copying the holder back replaces the cells it was merged from. -/
theorem copy_back_spec {α : Type} : ∀ (holder P X Q : List α), X.length = holder.length →
    copy_back (P ++ X ++ Q) P.length holder = some (P ++ holder ++ Q)
  | [], P, X, Q, hlen => by
    have : X = [] := List.length_eq_zero.mp (by simpa using hlen)
    subst this
    rfl
  | x :: xs, P, [], Q, hlen => by simp at hlen
  | x :: xs, P, y :: ys, Q, hlen => by
    have hlt : P.length < (P ++ y :: ys ++ Q).length := by
      simp only [List.length_append, List.length_cons]
      omega
    have hset : (P ++ y :: ys ++ Q).set P.length x = (P ++ [x]) ++ ys ++ Q := by
      simp [List.set_append]
    have hpos : P.length + 1 = (P ++ [x]).length := by simp
    rw [copy_back, if_pos hlt, hset, hpos,
      copy_back_spec xs (P ++ [x]) ys Q (by simpa using hlen)]
    simp

/-- The merging loop over two runs of cells `A` and `B` of the array, with a
holder large enough for all the cells, fills the holder with the merge of
the two runs: the left cell is taken when `cmp` puts it strictly before the
right one. -/
theorem merge_loop_spec {α : Type} (cmp : α → α → Int) (size_of_elem : Nat) (arr : List α)
    (mid right_border capacity : Nat) : ∀ (k i q : Nat) (holder A B : List α),
    (∀ j, j < A.length → arr[i + j]? = A[j]?) →
    (∀ j, j < B.length → arr[q + j]? = B[j]?) →
    i + A.length = mid + 1 → q + B.length = right_border + 1 →
    k = A.length + B.length →
    (holder.length + k) * size_of_elem ≤ capacity →
    merge_loop cmp size_of_elem arr mid right_border capacity k i q holder
      = some (holder ++ A.merge B (fun a b => decide (cmp a b < 0))) := by
  intro k
  induction k with
  | zero =>
    intro i q holder A B _ _ _ _ hk _
    have hA : A = [] := List.length_eq_zero.mp (by omega)
    have hB : B = [] := List.length_eq_zero.mp (by omega)
    subst hA
    subst hB
    simp [merge_loop]
  | succ k ih =>
    intro i q holder A B hA hB hmid hr hk hcap
    have hc1 : (holder.length + 1) * size_of_elem ≤ capacity :=
      le_trans (Nat.mul_le_mul_right _ (by omega)) hcap
    have hc2 : ∀ x : α, ((holder ++ [x]).length + k) * size_of_elem ≤ capacity := by
      intro x
      have e : (holder ++ [x]).length + k = holder.length + (k + 1) := by
        simp only [List.length_append, List.length_singleton]
        omega
      rw [e]
      exact hcap
    have hshift : ∀ (n : Nat) (x : α) (X : List α),
        (∀ j, j < (x :: X).length → arr[n + j]? = (x :: X)[j]?) →
        arr[n]? = some x ∧ ∀ j, j < X.length → arr[n + 1 + j]? = X[j]? := by
      intro n x X hX
      refine ⟨by simpa using hX 0 (by simp), ?_⟩
      intro j hj
      have := hX (j + 1) (by simpa using hj)
      rw [show n + 1 + j = n + (j + 1) by omega, this]
      simp
    cases B with
    | nil =>
      have hq : q > right_border := by
        simp only [List.length_nil] at hr
        omega
      cases A with
      | nil => simp at hk
      | cons a A1 =>
        obtain ⟨ha, hA1⟩ := hshift i a A1 hA
        rw [merge_loop]
        simp only [if_pos hq, ha, if_pos hc1]
        rw [ih (i + 1) q (holder ++ [a]) A1 [] hA1 hB
          (by simp only [List.length_cons] at hmid; omega) hr
          (by simp only [List.length_cons, List.length_nil] at hk ⊢; omega) (hc2 a)]
        simp [List.merge_right]
    | cons b B1 =>
      have hq : ¬ q > right_border := by
        simp only [List.length_cons] at hr
        omega
      obtain ⟨hb, hB1⟩ := hshift q b B1 hB
      cases A with
      | nil =>
        have hi : ¬ i ≤ mid := by
          simp only [List.length_nil] at hmid
          omega
        rw [merge_loop]
        simp only [if_neg hq, if_neg hi, hb, if_pos hc1]
        rw [ih i (q + 1) (holder ++ [b]) [] B1 hA hB1 hmid
          (by simp only [List.length_cons] at hr; omega)
          (by simp only [List.length_cons, List.length_nil] at hk ⊢; omega) (hc2 b)]
        simp [List.nil_merge]
      | cons a A1 =>
        have hi : i ≤ mid := by
          simp only [List.length_cons] at hmid
          omega
        obtain ⟨ha, hA1⟩ := hshift i a A1 hA
        rw [merge_loop, List.cons_merge_cons]
        simp only [if_neg hq, if_pos hi, ha, hb]
        by_cases c : cmp a b < 0
        · simp only [c, decide_True, if_true, ha, if_pos hc1]
          rw [ih (i + 1) q (holder ++ [a]) A1 (b :: B1) hA1 hB
            (by simp only [List.length_cons] at hmid; omega) hr
            (by simp only [List.length_cons] at hk ⊢; omega) (hc2 a)]
          simp
        · simp only [c, decide_False, Bool.false_eq_true, if_false, hb, if_pos hc1]
          rw [ih i (q + 1) (holder ++ [b]) (a :: A1) B1 hA hB1 hmid
            (by simp only [List.length_cons] at hr; omega)
            (by simp only [List.length_cons] at hk ⊢; omega) (hc2 b)]
          simp

/-- With cells of one byte, `__merge_sort` on a range of the array, given a
depth of at least the number of cells of the range, returns the array with
the cells of the range in ascending order and the other cells as they
were; the range has no more cells than an `int` counts and lies in the
lower half of `size_t`. -/
theorem merge_sort_range : ∀ (depth : Nat) (X P Q : List (List Char)), X ≠ [] →
    X.length ≤ depth → 2 * (P.length + X.length) ≤ SIZE_MOD → X.length ≤ 2147483647 →
    ∃ S, S.Perm X ∧ S.Pairwise (fun a b => cmp a b ≤ 0) ∧
      __merge_sort cmp 1 depth (P ++ X ++ Q) P.length (P.length + X.length - 1)
        = some (some (P ++ S ++ Q)) := by
  intro depth
  induction depth with
  | zero =>
    intro X P Q hne hlen _ _
    exact absurd (List.length_eq_zero.mp (by omega)) hne
  | succ depth ih =>
    intro X P Q hne hlen hsz hint
    have hpos : 0 < X.length := List.length_pos.mpr hne
    have hmod := size_mod_eq
    by_cases h1 : X.length = 1
    · refine ⟨X, List.Perm.refl _, ?_, ?_⟩
      · obtain ⟨x, rfl⟩ := List.length_eq_one.mp h1
        simp
      · rw [__merge_sort, if_pos (by omega)]
    · obtain ⟨X1, hX1⟩ : ∃ X1, X1 = X.take ((X.length - 1) / 2 + 1) := ⟨_, rfl⟩
      obtain ⟨X2, hX2⟩ : ∃ X2, X2 = X.drop ((X.length - 1) / 2 + 1) := ⟨_, rfl⟩
      have hX : X = X1 ++ X2 := by rw [hX1, hX2, List.take_append_drop]
      have hl1 : X1.length = (X.length - 1) / 2 + 1 := by
        rw [hX1, List.length_take]
        omega
      have hl2 : X2.length = X.length - ((X.length - 1) / 2 + 1) := by
        rw [hX2, List.length_drop]
      have hne1 : X1 ≠ [] := by
        intro e
        rw [e] at hl1
        simp at hl1
      have hne2 : X2 ≠ [] := by
        intro e
        rw [e] at hl2
        simp only [List.length_nil] at hl2
        omega
      obtain ⟨S1, hp1, hs1, hrun1⟩ := ih X1 P (X2 ++ Q) hne1 (by omega) (by omega) (by omega)
      have hS1 : S1.length = X1.length := hp1.length_eq
      obtain ⟨S2, hp2, hs2, hrun2⟩ := ih X2 (P ++ S1) Q hne2 (by omega)
        (by simp only [List.length_append]; omega) (by omega)
      have hS2 : S2.length = X2.length := hp2.length_eq
      have hmid : midpoint P.length (P.length + X.length - 1) = P.length + X1.length - 1 := by
        rw [midpoint_eq (by omega)]
        omega
      have hmid1 : midpoint P.length (P.length + X.length - 1) + 1 = (P ++ S1).length := by
        rw [hmid]
        simp only [List.length_append]
        omega
      have hr : P.length + X.length - 1 = (P ++ S1).length + X2.length - 1 := by
        simp only [List.length_append]
        omega
      have harr1 : P ++ X ++ Q = P ++ X1 ++ (X2 ++ Q) := by
        rw [hX]
        simp
      have harr2 : P ++ S1 ++ (X2 ++ Q) = (P ++ S1) ++ X2 ++ Q := by simp
      have hrun1a : __merge_sort cmp 1 depth (P ++ X ++ Q) P.length
          (midpoint P.length (P.length + X.length - 1))
            = some (some (P ++ S1 ++ (X2 ++ Q))) := by
        rw [hmid, harr1]
        exact hrun1
      have hrun2a : __merge_sort cmp 1 depth (P ++ S1 ++ (X2 ++ Q))
          (midpoint P.length (P.length + X.length - 1) + 1) (P.length + X.length - 1)
            = some (some (P ++ S1 ++ S2 ++ Q)) := by
        rw [hmid1, harr2, hr]
        exact hrun2
      have hcap : sort_holder_bytes 1 (P.length + X.length - 1) = P.length + X.length := by
        rw [sort_holder_bytes, Nat.mul_one, Nat.mod_eq_of_lt (by omega)]
        omega
      have hhl : holder_len P.length (P.length + X.length - 1) = X.length := by
        rw [holder_len_eq (by omega) (by omega)]
        omega
      have hloop : merge_loop cmp 1 (P ++ S1 ++ S2 ++ Q)
          (midpoint P.length (P.length + X.length - 1)) (P.length + X.length - 1)
          (sort_holder_bytes 1 (P.length + X.length - 1))
          (holder_len P.length (P.length + X.length - 1)) P.length
          (midpoint P.length (P.length + X.length - 1) + 1) []
            = some ([] ++ S1.merge S2 (fun a b => decide (cmp a b < 0))) := by
        apply merge_loop_spec
        · intro j hj
          have := getElem?_middle P S1 (S2 ++ Q) j hj
          simpa using this
        · intro j hj
          rw [hmid1]
          exact getElem?_middle (P ++ S1) S2 Q j hj
        · omega
        · rw [hmid1]
          simp only [List.length_append]
          omega
        · omega
        · rw [hcap, hhl]
          simp only [List.length_nil]
          omega
      have hcopy : copy_back (P ++ S1 ++ S2 ++ Q) P.length
          ([] ++ S1.merge S2 (fun a b => decide (cmp a b < 0)))
            = some (P ++ S1.merge S2 (fun a b => decide (cmp a b < 0)) ++ Q) := by
        have := copy_back_spec (S1.merge S2 (fun a b => decide (cmp a b < 0))) P (S1 ++ S2) Q
          (by rw [(List.merge_perm_append _).length_eq])
        simpa using this
      have hstep : ¬ INT32_MAX < ((holder_len P.length (P.length + X.length - 1) : Nat) : Int) := by
        rw [hhl, INT32_MAX]
        omega
      refine ⟨S1.merge S2 (fun a b => decide (cmp a b < 0)), ?_, merge_ascending S1 S2 hs1 hs2, ?_⟩
      · rw [hX]
        exact (List.merge_perm_append _).trans (hp1.append hp2)
      · rw [__merge_sort, if_neg (by omega)]
        simp only [hrun1a, hrun2a, hloop, if_neg hstep, hcopy]

/-- The merging logic sorts: with cells of one byte, for which the holder is
large enough, `merge_sort` of an array of one name or more, and of no more
names than an `int` counts, returns the names in ascending order of
`strcmp`, and they are a permutation of the input. -/
theorem merge_sort_sorts_byte_cells (arr : List (List Char)) (hne : arr ≠ [])
    (hsz : arr.length ≤ 2147483647) :
    ∃ S, merge_sort arr arr.length 1 cmp = some (some S) ∧ S.Perm arr ∧
      S.Pairwise (fun a b => strcmp a b ≤ 0) := by
  have hmod := size_mod_eq
  obtain ⟨S, hp, hs, hrun⟩ := merge_sort_range arr.length arr [] [] hne (le_refl _)
    (by simp only [List.length_nil]; omega) hsz
  have hpos : 0 < arr.length := List.length_pos.mpr hne
  have e : (arr.length + SIZE_MOD - 1) % SIZE_MOD = arr.length - 1 := by
    have e1 : arr.length + SIZE_MOD - 1 = (arr.length - 1) + SIZE_MOD := by omega
    rw [e1, Nat.add_mod_right, Nat.mod_eq_of_lt (by omega)]
  refine ⟨S, ?_, hp, hs⟩
  rw [merge_sort, e]
  simpa using hrun

/-! ## The claims about the sort -/

/-- C24, evaluated where it fails: for the array of the two names `b`, `a`
with cells of 8 bytes, `__merge_sort` allocates a holder of 9 bytes and
writes 16 bytes to it, which is undefined; for no array of two or more
cells of 8 bytes does `merge_sort` give a defined array.  The merging logic
is not at fault: with cells of one byte, for which the holder is large
enough, every array of one name or more (and of no more names than an `int`
counts) comes out in ascending order. -/
theorem C24_merge_sort_writes_past_holder :
    merge_sort ["b".toList, "a".toList] 2 8 cmp = some none ∧
    (∀ (arr : List (List Char)) (size : Nat) (res : List (List Char)),
      2 ≤ size → size < SIZE_MOD → merge_sort arr size 8 cmp ≠ some (some res)) ∧
    (∀ arr : List (List Char), arr ≠ [] → arr.length ≤ 2147483647 →
      ∃ S, merge_sort arr arr.length 1 cmp = some (some S) ∧
        S.Pairwise (fun a b => strcmp a b ≤ 0)) := by
  refine ⟨by decide, ?_, ?_⟩
  · intro arr size res h2 hlt
    have e : (size + SIZE_MOD - 1) % SIZE_MOD = size - 1 := by
      have e1 : size + SIZE_MOD - 1 = (size - 1) + SIZE_MOD := by omega
      rw [e1, Nat.add_mod_right, Nat.mod_eq_of_lt (by omega)]
    rw [merge_sort, e]
    exact merge_sort_never_defined cmp 8 (by omega) size arr (size - 1) (by omega) (by omega) res
  · intro arr hne hsz
    obtain ⟨S, hrun, _, hs⟩ := merge_sort_sorts_byte_cells arr hne hsz
    exact ⟨S, hrun, hs⟩

/-- C25, evaluated where it fails: for the array of the three names `a`,
`b`, `c` with cells of 8 bytes the merge of the cells 0 and 1 writes 16
bytes to a holder of 9 bytes, so the sort is undefined and no permutation of
the input results; only an array of one cell is returned, as it was.  With
cells of one byte, for which the holder is large enough, the result is a
permutation of the input. -/
theorem C25_merge_sort_undefined_on_three_names :
    merge_sort ["a".toList, "b".toList, "c".toList] 3 8 cmp = some none ∧
    (∀ arr : List (List Char), merge_sort arr 1 8 cmp = some (some arr)) ∧
    (∀ arr : List (List Char), arr ≠ [] → arr.length ≤ 2147483647 →
      ∃ S, merge_sort arr arr.length 1 cmp = some (some S) ∧ S.Perm arr) := by
  refine ⟨by decide, ?_, ?_⟩
  · intro arr
    have e : (1 + SIZE_MOD - 1) % SIZE_MOD = 0 := by decide
    rw [merge_sort, e]
    simp only [__merge_sort, if_true]
  · intro arr hne hsz
    obtain ⟨S, hrun, hp, _⟩ := merge_sort_sorts_byte_cells arr hne hsz
    exact ⟨S, hrun, hp⟩

/-! ## The recursion of the sort and the size of its holder -/

/-- For borders `l < r` whose sum does not wrap, the midpoint lies in the
range and below its right border. -/
theorem midpoint_bounds {l r : Nat} (hlt : l < r) (hsum : l + r < SIZE_MOD) :
    l ≤ midpoint l r ∧ midpoint l r < r := by
  rw [midpoint_eq hsum]
  omega

/-- The calls made from a call with borders in order, in the lower half of
`size_t`: with a depth bound above the distance of the borders the list of
calls is complete, it starts with the call itself, it has
`2 * (r - l) + 1` calls, and the borders of every call are in order and
inside the range. -/
theorem merge_sort_calls_spec : ∀ (depth l r : Nat), l ≤ r → 2 * r < SIZE_MOD → r - l < depth →
    ∃ cs, merge_sort_calls depth l r = some cs ∧ cs.head? = some (l, r) ∧
      cs.length = 2 * (r - l) + 1 ∧ ∀ c ∈ cs, l ≤ c.1 ∧ c.1 ≤ c.2 ∧ c.2 ≤ r := by
  intro depth
  induction depth with
  | zero =>
    intro l r _ _ hd
    omega
  | succ depth ih =>
    intro l r hle hr hd
    by_cases h1 : l = r
    · subst h1
      refine ⟨[(l, l)], by simp [merge_sort_calls], rfl, by simp, ?_⟩
      intro c hc
      simp only [List.mem_singleton] at hc
      subst hc
      simp
    · obtain ⟨hm1, hm2⟩ := midpoint_bounds (lt_of_le_of_ne hle h1) (by omega)
      obtain ⟨cs1, hc1, _, hlen1, hin1⟩ := ih l (midpoint l r) hm1 (by omega) (by omega)
      obtain ⟨cs2, hc2, _, hlen2, hin2⟩ := ih (midpoint l r + 1) r (by omega) hr (by omega)
      refine ⟨(l, r) :: (cs1 ++ cs2), ?_, rfl, ?_, ?_⟩
      · rw [merge_sort_calls, if_neg h1]
        simp only [hc1, hc2]
      · simp only [List.length_cons, List.length_append, hlen1, hlen2]
        omega
      · intro c hc
        simp only [List.mem_cons, List.mem_append] at hc
        rcases hc with rfl | hc | hc
        · exact ⟨le_refl _, hle, le_refl _⟩
        · have := hin1 c hc
          omega
        · have := hin2 c hc
          omega

/-- The holder of a call that reaches the merge step is large enough for the
cells written to it exactly when the range does not start at index 0 or the
cells have one byte. -/
theorem holder_large_enough_iff (s l r : Nat) (hlt : l < r) (hs : 1 ≤ s)
    (hfit : r * s + 1 < SIZE_MOD) :
    holder_bytes_written s l r ≤ sort_holder_bytes s r ↔ (1 ≤ l ∨ s = 1) := by
  have hrs : r ≤ r * s := Nat.le_mul_of_pos_right r hs
  have hlen : holder_len l r = r - l + 1 := holder_len_eq (le_of_lt hlt) (by omega)
  rw [holder_bytes_written, sort_holder_bytes, hlen, Nat.mod_eq_of_lt hfit]
  constructor
  · intro hle
    by_contra hcon
    have hl0 : l = 0 := by omega
    have hs2 : 2 ≤ s := by omega
    subst hl0
    have hmul : (r - 0 + 1) * s = r * s + s := by
      rw [Nat.sub_zero]
      ring
    omega
  · rintro (h1 | h1)
    · have hmul : (r - l + 1) * s ≤ r * s := Nat.mul_le_mul_right s (by omega)
      omega
    · subst h1
      omega

/-- C31, evaluated where it fails: `merge_sort` of two cells of 8 bytes
calls `__merge_sort` with the borders 0 and 1, which reaches the merge step,
allocates a holder of 1 * 8 + 1 = 9 bytes and writes 2 * 8 = 16 bytes to
it; the merging loop stops at the write beyond the block.  In general, among
the calls that `merge_sort` of `n >= 2` cells leads to and that reach the
merge step, the holder is large enough exactly for those whose range does
not start at index 0, or for all of them when the cells have one byte; the
first call, with the borders 0 and `n - 1`, is among them. -/
theorem C31_holder_smaller_than_bytes_written :
    (merge_sort_calls 2 0 1 = some [(0, 1), (0, 0), (1, 1)] ∧
      sort_holder_bytes 8 1 = 9 ∧ holder_bytes_written 8 0 1 = 16 ∧
      merge_loop cmp 8 ["b".toList, "a".toList] (midpoint 0 1) 1 (sort_holder_bytes 8 1)
        (holder_len 0 1) 0 (midpoint 0 1 + 1) [] = none) ∧
    (∀ n s : Nat, 2 ≤ n → 1 ≤ s → 2 * (n - 1) < SIZE_MOD → (n - 1) * s + 1 < SIZE_MOD →
      ∃ cs, merge_sort_calls n 0 (n - 1) = some cs ∧ (0, n - 1) ∈ cs ∧ 0 ≠ n - 1 ∧
        ∀ c ∈ cs, c.1 ≠ c.2 →
          (holder_bytes_written s c.1 c.2 ≤ sort_holder_bytes s c.2 ↔ (1 ≤ c.1 ∨ s = 1))) := by
  refine ⟨⟨by decide, by decide, by decide, by decide⟩, ?_⟩
  intro n s hn hs h2 hfit
  obtain ⟨cs, hcs, hhead, _, hin⟩ := merge_sort_calls_spec n 0 (n - 1) (Nat.zero_le _) h2 (by omega)
  refine ⟨cs, hcs, ?_, by omega, ?_⟩
  · cases cs with
    | nil => simp at hhead
    | cons c cs1 =>
      simp only [List.head?_cons, Option.some.injEq] at hhead
      simp [hhead]
  · intro c hc hne
    obtain ⟨_, h12, hr⟩ := hin c hc
    have hmul : c.2 * s ≤ (n - 1) * s := Nat.mul_le_mul_right s hr
    exact holder_large_enough_iff s c.1 c.2 (lt_of_le_of_ne h12 hne) hs (by omega)

end PlayerGame
